import Mathlib

/-!
# svc-go-color: the colour service (`main.go`)

A shallow embedding of `main.go`: the `/next` handler, the client of the random
service, the three renderers, the readiness check and the lifecycle of `main`.

Conventions of the embedding.

* A Go `string` is a Lean `String`: texts are sequences of Unicode scalar values.
* A Go `int` is an `Int`; the conversion `uint8(v)` is `v % 256`.
* A Go `error` result is an `Except`; a run-time panic is an `Except.error` carrying the
  panic text.
* Calls into the Go standard library (`fmt`, `encoding/json`, `net/url`, `net/http`) are
  embedded by definitions that follow the library's code as of Go 1.20; each says which library
  function it stands for.
* `log.Printf` and `log.Println` write to the process log only and are left out.
-/

namespace ColorSvc

/-- Equality of `Except` values is decidable. -/
instance instDecidableEqExcept {ε α : Type} [DecidableEq ε] [DecidableEq α] :
    DecidableEq (Except ε α)
  | .ok a, .ok b =>
    if h : a = b then isTrue (by rw [h]) else isFalse (fun h2 => by cases h2; exact h rfl)
  | .error a, .error b =>
    if h : a = b then isTrue (by rw [h]) else isFalse (fun h2 => by cases h2; exact h rfl)
  | .ok _, .error _ => isFalse (fun h => by cases h)
  | .error _, .ok _ => isFalse (fun h => by cases h)

/-! ## Package `fmt` -/

/-- The digit loop of `fmt.fmtInteger`: while `u >= base` emit `digits[u % base]` and divide,
then emit `digits[u]`. Digits are written right to left in front of `acc`; `digits` is
`"0123456789abcdef"`. The first argument bounds the number of iterations. -/
def fmtDigits (base : Nat) : Nat → Nat → List Char → List Char
  | 0, u, acc => Nat.digitChar u :: acc
  | fuel + 1, u, acc =>
    if base ≤ u then fmtDigits base fuel (u / base) (Nat.digitChar (u % base) :: acc)
    else Nat.digitChar u :: acc

/-- The function `fmt.fmtInteger` for a signed integer without the `#`, `+`, space and `-` flags and
without a precision: `zero` is the `0` flag, `wid` the width when one is present.
With `0` and a width, the digits are padded with zeros up to the width, less one when a sign is
written; then the sign; then `fmt.pad` fills up to the width with blanks on the left. -/
def fmtInteger (v : Int) (base : Nat) (zero : Bool) (wid : Option Nat) : List Char :=
  let negative := decide (v < 0)
  let u := v.natAbs
  let prec : Nat :=
    match zero, wid with
    | true, some w => if negative then w - 1 else w
    | _, _ => 0
  let digits := fmtDigits base u u []
  let digits := List.replicate (prec - digits.length) '0' ++ digits
  let signed := if negative then '-' :: digits else digits
  List.replicate (wid.getD 0 - signed.length) ' ' ++ signed

/-- The verb `%d` applied to an `int`. -/
def fmtD (v : Int) : String := String.mk (fmtInteger v 10 false none)

/-- The verb `%02x` applied to an `int`. -/
def fmt02x (v : Int) : String := String.mk (fmtInteger v 16 true (some 2))

/-! ## Package `encoding/json`: encoding -/

/-- The table `htmlSafeSet` of `encoding/json`: the ASCII characters written as they are inside a JSON
string when HTML escaping is on (the default of `json.Marshal`): all from the blank to DEL
except the double quote, the ampersand, the angle brackets and the backslash. -/
def htmlSafe (c : Char) : Bool :=
  0x20 ≤ c.toNat && c.toNat < 0x80 &&
    c != '"' && c != '&' && c != '<' && c != '>' && c != '\\'

/-- One character of a string as `encodeState.string` of `encoding/json` writes it (Go before
1.22 for backspace and form feed, which later releases write as `\b` and `\f`). -/
def jsonEscapeChar (c : Char) : List Char :=
  if c.toNat < 0x80 then
    if htmlSafe c then [c]
    else if c = '\\' ∨ c = '"' then ['\\', c]
    else if c = '\n' then ['\\', 'n']
    else if c = '\r' then ['\\', 'r']
    else if c = '\t' then ['\\', 't']
    else ['\\', 'u', '0', '0', Nat.digitChar (c.toNat / 16), Nat.digitChar (c.toNat % 16)]
  else if c.toNat = 0x2028 ∨ c.toNat = 0x2029 then
    ['\\', 'u', '2', '0', '2', Nat.digitChar (c.toNat % 16)]
  else [c]

/-- A Go string as a JSON string literal: `encodeState.string`. -/
def jsonString (s : String) : String :=
  String.mk ('"' :: (s.data.flatMap jsonEscapeChar ++ ['"']))

/-! ## Response types and their encodings -/

/-- The struct `ColorResponse`; the fields `R`, `G`, `B` are `uint8`. -/
structure ColorResponse where
  Hex : String
  R : Nat
  G : Nat
  B : Nat
  deriving DecidableEq, Repr

/-- The struct `ErrorResponse`. -/
structure ErrorResponse where
  Error : String
  deriving DecidableEq, Repr

/-- The struct `AboutResponse`. -/
structure AboutResponse where
  Name : String
  Version : String
  Hostname : String
  deriving DecidableEq, Repr

/-- The call `json.Marshal(v)` for a `ColorResponse`: the members in declaration order under their
tags, the string quoted and the `uint8` fields in decimal. The second component is the `error`
result, `nil` for a struct of strings and numbers. -/
def json.MarshalColorResponse (v : ColorResponse) : String × Option String :=
  ("\x7b\"hex\":" ++ jsonString v.Hex ++ ",\"r\":" ++ fmtD v.R ++ ",\"g\":" ++ fmtD v.G
    ++ ",\"b\":" ++ fmtD v.B ++ "\x7d", none)

/-- The call `json.Marshal(e)` for an `ErrorResponse`. -/
def json.MarshalErrorResponse (e : ErrorResponse) : String × Option String :=
  ("\x7b\"error\":" ++ jsonString e.Error ++ "\x7d", none)

/-- The call `json.Marshal(a)` for an `AboutResponse`. -/
def json.MarshalAboutResponse (a : AboutResponse) : String × Option String :=
  ("\x7b\"name\":" ++ jsonString a.Name ++ ",\"version\":" ++ jsonString a.Version
    ++ ",\"hostname\":" ++ jsonString a.Hostname ++ "\x7d", none)

/-! ## Package `net/http`: the response writer -/

/-- What an `http.ResponseWriter` has received: the header map, the status code once the header is
written, and the body bytes. -/
structure ResponseWriter where
  header : List (String × String)
  status : Option Int
  body : String
  deriving DecidableEq, Repr

/-- The writer a handler is given: nothing written yet. -/
def ResponseWriter.fresh : ResponseWriter := ⟨[], none, ""⟩

/-- The call `w.Header().Set(key, value)`. -/
def ResponseWriter.setHeader (w : ResponseWriter) (key value : String) : ResponseWriter :=
  { w with header := (key, value) :: w.header.filter (fun kv => kv.1 != key) }

/-- The call `w.WriteHeader(code)` on the writer of the `net/http` server: ignored once the header is
written; otherwise the code must have three digits (`checkWriteHeaderCode` panics on another
one). An informational code, 1xx other than 101, is sent at once as an interim header and leaves
the response itself unwritten; every other code is recorded as the status of the response. -/
def ResponseWriter.WriteHeader (w : ResponseWriter) (code : Int) : Except String ResponseWriter :=
  if w.status.isSome then .ok w
  else if code < 100 ∨ code > 999 then .error ("invalid WriteHeader code " ++ fmtD code)
  else if 100 ≤ code ∧ code ≤ 199 ∧ code ≠ 101 then .ok w
  else .ok { w with status := some code }

/-- The function `bodyAllowedForStatus` of `net/http`: no body with 1xx, 204 and 304. -/
def bodyAllowedForStatus (status : Int) : Bool :=
  if 100 ≤ status ∧ status ≤ 199 then false
  else if status = 204 then false
  else if status = 304 then false
  else true

/-- The call `w.Write(b)` on the writer of the `net/http` server: writes the header with
`http.StatusOK` when none is written yet, then appends to the body, unless the status allows no
body (the call then returns `ErrBodyNotAllowed`, which no caller here looks at). -/
def ResponseWriter.Write (w : ResponseWriter) (b : String) : ResponseWriter :=
  if bodyAllowedForStatus (w.status.getD 200) then
    { w with status := some (w.status.getD 200), body := w.body ++ b }
  else { w with status := some (w.status.getD 200) }

/-- The function `http.Error(w, error, code)`: sets the content type to plain text, sets
`X-Content-Type-Options`, writes the header with `code` and prints `error` as a line
(`fmt.Fprintln`). -/
def http.Error (w : ResponseWriter) (error : String) (code : Int) : Except String ResponseWriter := do
  let w := w.setHeader "Content-Type" "text/plain; charset=utf-8"
  let w := w.setHeader "X-Content-Type-Options" "nosniff"
  let w ← w.WriteHeader code
  pure (w.Write (error ++ "\n"))

/-- The constant `http.StatusBadRequest`. -/
def http.StatusBadRequest : Int := 400

/-- The constant `http.StatusInternalServerError`. -/
def http.StatusInternalServerError : Int := 500

/-! ## The renderers -/

/-- The method `ColorResponse.render`. -/
def ColorResponse.render (v : ColorResponse) (w : ResponseWriter) : Except String ResponseWriter := do
  let (encoded, err) := json.MarshalColorResponse v
  let w ← match err with
    | some err => http.Error w err http.StatusInternalServerError
    | none => pure w
  let w := w.setHeader "Content-Type" "application/json"
  pure (w.Write encoded)

/-- The method `AboutResponse.render`. -/
def AboutResponse.render (a : AboutResponse) (w : ResponseWriter) : Except String ResponseWriter := do
  let (encoded, err) := json.MarshalAboutResponse a
  let w ← match err with
    | some err => http.Error w err http.StatusInternalServerError
    | none => pure w
  let w := w.setHeader "Content-Type" "application/json"
  pure (w.Write encoded)

/-- The method `ErrorResponse.render`. -/
def ErrorResponse.render (e : ErrorResponse) (w : ResponseWriter) (code : Int) :
    Except String ResponseWriter := do
  let w := w.setHeader "Content-Type" "application/json"
  let (encoded, err) := json.MarshalErrorResponse e
  let w ← match err with
    | some err =>
      http.Error w ("\x7b \"error\": \"" ++ err ++ "\" \x7d") http.StatusInternalServerError
    | none => pure w
  http.Error w encoded code

/-! ## Package `encoding/json`: decoding into `RandomResponse` -/

/-- The errors that `RandomService.next` can return. -/
inductive GoError
  /-- The error of the transport, as `Client.Get` returns it: a `*url.Error` with its text. -/
  | transport (text : String)
  /-- The error of `http.NewRequest` for a URL that does not parse: a `*url.Error` with its
  text. -/
  | parse (text : String)
  /-- A `*json.SyntaxError` with its text: the body is not well-formed JSON. -/
  | malformed (text : String)
  /-- A `*json.UnmarshalTypeError`: the JSON value `value` does not fit the Go type `goType`;
  `field` is the struct field being decoded, empty at the top level. -/
  | unmarshalType (value : String) (goType : String) (field : String)
  deriving DecidableEq, Repr

/-- The method `Error()` of the error types. -/
def GoError.Error : GoError → String
  | .transport text => text
  | .parse text => text
  | .malformed text => text
  | .unmarshalType value goType field =>
    if field = "" then "json: cannot unmarshal " ++ value ++ " into Go value of type " ++ goType
    else "json: cannot unmarshal " ++ value ++ " into Go struct field " ++ field
      ++ " of type " ++ goType

/-- Whether the error comes from `json.Unmarshal`. -/
def GoError.isDecodeError : GoError → Bool
  | .transport _ => false
  | .parse _ => false
  | .malformed _ => true
  | .unmarshalType _ _ _ => true

/-- A well-formed JSON text as the scanner of `encoding/json` delivers it. A number literal without
fraction and exponent is `int` with its value; one with a fraction or an exponent is `float`
with its text. -/
inductive JSON
  | null
  | bool (b : Bool)
  | int (i : Int)
  | float (lit : String)
  | str (s : String)
  | arr (items : List JSON)
  | obj (members : List (String × JSON))

/-- The bytes of a response body, read by `ioutil.ReadAll`, as `json.Unmarshal` sees them: either
not well-formed JSON, with the text of the syntax error, or a JSON value. The scanner itself is
not embedded. -/
abbrev Body := Except String JSON

/-- The struct `RandomResponse`. The slice `Values` is given by its elements; `spare` holds the
elements that its backing array keeps beyond its length, which come back when a later decoding
into the slice makes it longer again. -/
structure RandomResponse where
  Values : List Int
  spare : List Int
  deriving DecidableEq, Repr

/-- The value `new(RandomResponse)`: a nil slice. -/
def RandomResponse.new : RandomResponse := ⟨[], []⟩

/-- The least value of a Go `int` (64 bits). -/
def minInt : Int := -(2 ^ 63)

/-- The greatest value of a Go `int` (64 bits). -/
def maxInt : Int := 2 ^ 63 - 1

/-- The word `UnmarshalTypeError.Value` uses for a JSON value that meets a Go type of another
kind. -/
def JSON.describe : JSON → String
  | .null => "null"
  | .bool _ => "bool"
  | .int _ => "number"
  | .float _ => "number"
  | .str _ => "string"
  | .arr _ => "array"
  | .obj _ => "object"

/-- One array element decoded into an `int` (`literalStore`): `null` stores nothing, a number
literal is parsed by `strconv.ParseInt` and must be an integer that fits an `int`; everything
else is a type error. -/
def decodeInt : JSON → Except GoError (Option Int)
  | .null => .ok none
  | .int i =>
    if minInt ≤ i ∧ i ≤ maxInt then .ok (some i)
    else .error (.unmarshalType ("number " ++ fmtD i) "int" "RandomResponse.values")
  | .float lit => .error (.unmarshalType ("number " ++ lit) "int" "RandomResponse.values")
  | j => .error (.unmarshalType j.describe "int" "RandomResponse.values")

/-- The first error met is the one kept: `decodeState.saveError`. -/
def saveError (saved : Option GoError) (err : GoError) : Option GoError :=
  match saved with
  | some e => some e
  | none => some err

/-- A JSON array decoded into a `[]int` (`decodeState.array`): one element for each item. The item
is decoded into the element that the slice, or its backing array beyond it, holds at that place,
zero when there is none; so an item that stores nothing leaves that value. A type error is saved
and decoding goes on. `pool` lists the elements of the slice followed by the spare ones. -/
def decodeArray : List JSON → List Int → Option GoError → List Int × Option GoError
  | [], _, saved => ([], saved)
  | j :: rest, pool, saved =>
    match decodeInt j with
    | .ok v =>
      let (vs, saved) := decodeArray rest pool.tail saved
      (v.getD (pool.headD 0) :: vs, saved)
    | .error err =>
      let (vs, saved) := decodeArray rest pool.tail (saveError saved err)
      (pool.headD 0 :: vs, saved)

/-- A JSON value decoded into the field `Values []int`: `null` makes it nil, an empty array makes it
a new empty slice, another array is decoded item by item into the slice the field holds, which is
cut or extended to the number of items; every other value is a type error that leaves the field as
it is. -/
def decodeValues (j : JSON) (r : RandomResponse) (saved : Option GoError) :
    RandomResponse × Option GoError :=
  match j with
  | .null => (⟨[], []⟩, saved)
  | .arr [] => (⟨[], []⟩, saved)
  | .arr items =>
    let (vs, saved) := decodeArray items (r.Values ++ r.spare) saved
    (⟨vs, (r.Values ++ r.spare).drop items.length⟩, saved)
  | j => (r, saveError saved (.unmarshalType j.describe "[]int" "RandomResponse.values"))

/-- Folding of a key character as `encoding/json` matches field names without regard to case; for a
name with the letters `k` or `s` the Kelvin sign and the long s count as these letters. -/
def foldChar (c : Char) : Char :=
  if c.toNat = 0x212A then 'k'
  else if c.toNat = 0x17F then 's'
  else if 'A'.toNat ≤ c.toNat ∧ c.toNat ≤ 'Z'.toNat then Char.ofNat (c.toNat + 32)
  else c

/-- Whether an object key selects the field tagged `json:"values"`. -/
def matchesValues (key : String) : Bool :=
  key.data.map foldChar == "values".data

/-- The members of a JSON object decoded in order into a `RandomResponse` (`decodeState.object`):
a member whose key selects `Values` is decoded into it, every other member is skipped. A member
that repeats the field is decoded over the slice that the field already holds. -/
def decodeMembers : List (String × JSON) → RandomResponse → Option GoError →
    RandomResponse × Option GoError
  | [], r, saved => (r, saved)
  | (key, j) :: rest, r, saved =>
    if matchesValues key then
      let (r, saved) := decodeValues j r saved
      decodeMembers rest r saved
    else decodeMembers rest r saved

/-- The call `json.Unmarshal(body, rand)` with `rand` a new `RandomResponse`: the struct after the call
and the error returned. A syntax error is reported before anything is decoded; a top-level
`null` changes nothing; an object is decoded member by member; every other value is a type
error. -/
def json.Unmarshal (body : Body) (rand : RandomResponse) : RandomResponse × Option GoError :=
  match body with
  | .error text => (rand, some (.malformed text))
  | .ok .null => (rand, none)
  | .ok (.obj members) => decodeMembers members rand none
  | .ok j => (rand, some (.unmarshalType j.describe "main.RandomResponse" ""))

/-! ## Package `net/url` -/

/-- The modes of `escape` and `unescape` in `net/url`. -/
inductive Encoding
  | encodePath
  | encodePathSegment
  | encodeHost
  | encodeZone
  | encodeUserPassword
  | encodeQueryComponent
  | encodeFragment
  deriving DecidableEq, Repr

/-- The bytes of a character in UTF-8. A Go string is a sequence of bytes and `net/url` works on
bytes. -/
def utf8Bytes (c : Char) : List Nat :=
  let n := c.toNat
  if n < 0x80 then [n]
  else if n < 0x800 then [0xC0 + n / 64, 0x80 + n % 64]
  else if n < 0x10000 then [0xE0 + n / 4096, 0x80 + n / 64 % 64, 0x80 + n % 64]
  else [0xF0 + n / 262144, 0x80 + n / 4096 % 64, 0x80 + n / 64 % 64, 0x80 + n % 64]

/-- Whether a byte is an ASCII letter or digit. -/
def isAlnum (c : Nat) : Bool :=
  ('a'.toNat ≤ c && c ≤ 'z'.toNat) || ('A'.toNat ≤ c && c ≤ 'Z'.toNat)
    || ('0'.toNat ≤ c && c ≤ '9'.toNat)

/-- The function `shouldEscape` of `net/url`: whether a byte must be written as `%XX` in the given
mode. -/
def shouldEscape (c : Nat) (mode : Encoding) : Bool :=
  if isAlnum c then false
  else if (mode = .encodeHost ∨ mode = .encodeZone)
      ∧ c ∈ (0x27 :: "!$&()*+,;=:[]<>\"".data.map Char.toNat) then false
  else if c ∈ "-_.~".data.map Char.toNat then false
  else if c ∈ "$&+,/:;=?@".data.map Char.toNat then
    match mode with
    | .encodePath => c == '?'.toNat
    | .encodePathSegment =>
      c == '/'.toNat || c == ';'.toNat || c == ','.toNat || c == '?'.toNat
    | .encodeUserPassword =>
      c == '@'.toNat || c == '/'.toNat || c == '?'.toNat || c == ':'.toNat
    | .encodeQueryComponent => true
    | .encodeFragment => false
    | .encodeHost => true
    | .encodeZone => true
  else if mode = .encodeFragment ∧ c ∈ "!()*".data.map Char.toNat then false
  else true

/-- Whether a character is a hexadecimal digit: `ishex`. -/
def ishex (c : Char) : Bool :=
  ('0' ≤ c && c ≤ '9') || ('a' ≤ c && c ≤ 'f') || ('A' ≤ c && c ≤ 'F')

/-- The value of a hexadecimal digit: `unhex`. -/
def unhex (c : Char) : Nat :=
  if '0' ≤ c ∧ c ≤ '9' then c.toNat - '0'.toNat
  else if 'a' ≤ c ∧ c ≤ 'f' then c.toNat - 'a'.toNat + 10
  else if 'A' ≤ c ∧ c ≤ 'F' then c.toNat - 'A'.toNat + 10
  else 0

/-- The function `unescape` of `net/url`: `%XX` becomes the byte, `+` a blank in a query component;
the result is a string of bytes. It fails on a `%` that two hexadecimal digits do not follow, in a
host on an escape of an ASCII byte other than `%25` and on a character a host cannot hold, in a
zone on an escape of such a byte. The error is the text of the `EscapeError` or
`InvalidHostError`, without the quotes of `strconv.Quote`. -/
def unescape : List Char → Encoding → Except String (List Nat)
  | [], _ => .ok []
  | c :: rest, mode =>
    if c = '%' then
      match rest with
      | a :: b :: rest2 =>
        if ishex a ∧ ishex b then
          if mode = .encodeHost ∧ unhex a < 8 ∧ ¬ (a = '2' ∧ b = '5') then
            .error ("invalid URL escape " ++ String.mk ['%', a, b])
          else if mode = .encodeZone ∧ ¬ (a = '2' ∧ b = '5') ∧ unhex a * 16 + unhex b ≠ 0x20
              ∧ shouldEscape (unhex a * 16 + unhex b) .encodeHost then
            .error ("invalid URL escape " ++ String.mk ['%', a, b])
          else (unescape rest2 mode).map (fun bs => (unhex a * 16 + unhex b) :: bs)
        else .error ("invalid URL escape " ++ String.mk ['%', a, b])
      | _ => .error ("invalid URL escape " ++ String.mk ('%' :: rest))
    else if (mode = .encodeHost ∨ mode = .encodeZone) ∧ c.toNat < 0x80
        ∧ shouldEscape c.toNat .encodeHost then
      .error ("invalid character " ++ String.mk [c] ++ " in host name")
    else if c = '+' ∧ mode = .encodeQueryComponent then
      (unescape rest mode).map (fun bs => 0x20 :: bs)
    else (unescape rest mode).map (fun bs => utf8Bytes c ++ bs)

/-- The digits `upperhex` of `net/url`. -/
def upperhex (d : Nat) : Char :=
  if d < 10 then Char.ofNat ('0'.toNat + d) else Char.ofNat ('A'.toNat + (d - 10))

/-- The function `escape` of `net/url`: every byte that `shouldEscape` marks is written as `%XX`,
a blank in a query component as `+`. -/
def escape (s : List Nat) (mode : Encoding) : List Char :=
  s.flatMap (fun c =>
    if shouldEscape c mode then
      if c = 0x20 ∧ mode = .encodeQueryComponent then ['+']
      else ['%', upperhex (c / 16), upperhex (c % 16)]
    else [Char.ofNat c])

/-- The function `validEncoded` of `net/url`: whether a raw path or fragment may be written back as it
is. -/
def validEncoded (s : List Char) (mode : Encoding) : Bool :=
  s.all (fun c =>
    c.toNat ∈ (0x27 :: "!$&()*+,;=:@[]%".data.map Char.toNat) || !shouldEscape c.toNat mode)

/-- The parts of a string before and after the first occurrence of a character, if it occurs:
`strings.Cut` with a separator of one byte. -/
def cut (sep : Char) : List Char → List Char × Option (List Char)
  | [] => ([], none)
  | c :: cs =>
    if c = sep then ([], some cs)
    else ((c :: (cut sep cs).1), (cut sep cs).2)

/-- The parts of a string before and from the last occurrence of a character, if it occurs. -/
def cutLast (sep : Char) : List Char → Option (List Char × List Char)
  | [] => none
  | c :: cs =>
    match cutLast sep cs with
    | some (a, b) => some (c :: a, b)
    | none => if c = sep then some ([], c :: cs) else none

/-- The parts of a string before and from the first occurrence of `%25`, if it occurs. -/
def cutZone : List Char → Option (List Char × List Char)
  | [] => none
  | c :: cs =>
    if (c :: cs).take 3 = ['%', '2', '5'] then some ([], c :: cs)
    else (cutZone cs).map (fun ab => (c :: ab.1, ab.2))

/-- The struct `url.Userinfo`. -/
structure Userinfo where
  username : List Nat
  password : Option (List Nat)
  deriving DecidableEq, Repr

/-- The struct `url.URL`. `Host`, `Path` and `Fragment` hold the unescaped bytes. -/
structure URL where
  Scheme : List Char := []
  Opaque : List Char := []
  User : Option Userinfo := none
  Host : List Nat := []
  Path : List Nat := []
  RawPath : List Char := []
  OmitHost : Bool := false
  ForceQuery : Bool := false
  RawQuery : List Char := []
  Fragment : List Nat := []
  RawFragment : List Char := []
  deriving DecidableEq, Repr

/-- The loop of `getScheme`; `seen` counts the bytes read. -/
def getSchemeLoop (rawURL : List Char) :
    List Char → List Char → Except String (List Char × List Char)
  | [], _ => .ok ([], rawURL)
  | c :: cs, seen =>
    if ('a' ≤ c ∧ c ≤ 'z') ∨ ('A' ≤ c ∧ c ≤ 'Z') then getSchemeLoop rawURL cs (seen ++ [c])
    else if ('0' ≤ c ∧ c ≤ '9') ∨ c = '+' ∨ c = '-' ∨ c = '.' then
      if seen = [] then .ok ([], rawURL) else getSchemeLoop rawURL cs (seen ++ [c])
    else if c = ':' then
      if seen = [] then .error "missing protocol scheme" else .ok (seen, cs)
    else .ok ([], rawURL)

/-- The function `getScheme` of `net/url`: the scheme before the first colon and the rest, or no
scheme and the whole string. -/
def getScheme (rawURL : List Char) : Except String (List Char × List Char) :=
  getSchemeLoop rawURL rawURL []

/-- The function `strings.ToLower` on ASCII. -/
def toLower (s : List Char) : List Char :=
  s.map (fun c => if 'A' ≤ c ∧ c ≤ 'Z' then Char.ofNat (c.toNat + 32) else c)

/-- The function `validOptionalPort` of `net/url`: empty, or a colon followed by digits. -/
def validOptionalPort : List Char → Bool
  | [] => true
  | c :: cs => c == ':' && cs.all (fun d => '0' ≤ d && d ≤ '9')

/-- The function `parseHost` of `net/url` (as of Go 1.20; later releases check an IP literal
further). -/
def parseHost (host : List Char) : Except String (List Nat) :=
  if host.head? = some '[' then
    match cutLast ']' host with
    | none => .error "missing ']' in host"
    | some (before, closing) =>
      if !validOptionalPort (closing.drop 1) then
        .error ("invalid port " ++ String.mk (closing.drop 1) ++ " after host")
      else
        match cutZone before with
        | some (addr, zone) => do
          let host1 ← unescape addr .encodeHost
          let host2 ← unescape zone .encodeZone
          let host3 ← unescape closing .encodeHost
          pure (host1 ++ host2 ++ host3)
        | none => unescape host .encodeHost
  else
    match cutLast ':' host with
    | some (_, colonPort) =>
      if !validOptionalPort colonPort then
        .error ("invalid port " ++ String.mk colonPort ++ " after host")
      else unescape host .encodeHost
    | none => unescape host .encodeHost

/-- The function `validUserinfo` of `net/url`. -/
def validUserinfo (s : List Char) : Bool :=
  s.all (fun r => isAlnum r.toNat
    || r.toNat ∈ (0x27 :: "-._:~!$&()*+,;=%@".data.map Char.toNat))

/-- The function `parseAuthority` of `net/url`: the user information before the last `@`, if any, and
the host. -/
def parseAuthority (authority : List Char) : Except String (Option Userinfo × List Nat) :=
  match cutLast '@' authority with
  | none => do
    let host ← parseHost authority
    pure (none, host)
  | some (userinfo, atHost) => do
    let host ← parseHost (atHost.drop 1)
    if !validUserinfo userinfo then .error "net/url: invalid userinfo"
    else
      match cut ':' userinfo with
      | (_, none) => do
        let username ← unescape userinfo .encodeUserPassword
        pure (some ⟨username, none⟩, host)
      | (name, some pass) => do
        let username ← unescape name .encodeUserPassword
        let password ← unescape pass .encodeUserPassword
        pure (some ⟨username, some password⟩, host)

/-- The method `URL.setPath`: the unescaped path, and the raw path when the default escaping of
the path differs from it. -/
def URL.setPath (u : URL) (p : List Char) : Except String URL := do
  let path ← unescape p .encodePath
  if p = escape path .encodePath then pure { u with Path := path, RawPath := [] }
  else pure { u with Path := path, RawPath := p }

/-- The method `URL.setFragment`. -/
def URL.setFragment (u : URL) (f : List Char) : Except String URL := do
  let frag ← unescape f .encodeFragment
  if f = escape frag .encodeFragment then pure { u with Fragment := frag, RawFragment := [] }
  else pure { u with Fragment := frag, RawFragment := f }

/-- Whether a byte is a control character: `stringContainsCTLByte` looks for one. -/
def isCTL (c : Char) : Bool := c.toNat < 0x20 || c.toNat = 0x7f

/-- The function `parse` of `net/url` with `viaRequest` false: a URL without its fragment. -/
def url.parse (rawURL : List Char) : Except String URL :=
  if rawURL.any isCTL then .error "net/url: invalid control character in URL"
  else if rawURL = ['*'] then .ok { Path := ['*'.toNat] }
  else
    match getScheme rawURL with
    | .error err => .error err
    | .ok (scheme, rest) =>
      let u : URL := { Scheme := toLower scheme }
      let (rest, u) :=
        if rest.getLast? = some '?' ∧ rest.count '?' = 1 then
          (rest.dropLast, { u with ForceQuery := true })
        else ((cut '?' rest).1, { u with RawQuery := ((cut '?' rest).2).getD [] })
      if rest.head? ≠ some '/' ∧ u.Scheme ≠ [] then .ok { u with Opaque := rest }
      else if rest.head? ≠ some '/' ∧ ':' ∈ (cut '/' rest).1 then
        .error "first path segment in URL cannot contain colon"
      else if (u.Scheme ≠ [] ∨ rest.take 3 ≠ ['/', '/', '/']) ∧ rest.take 2 = ['/', '/'] then
        match parseAuthority (cut '/' (rest.drop 2)).1 with
        | .error err => .error err
        | .ok (user, host) =>
          URL.setPath { u with User := user, Host := host }
            (match (cut '/' (rest.drop 2)).2 with
              | some p => '/' :: p
              | none => [])
      else if u.Scheme ≠ [] ∧ rest.head? = some '/' then URL.setPath { u with OmitHost := true } rest
      else URL.setPath u rest

/-- The text of a `*url.Error` of the operation `parse`; the URL is written between quotes, without
the escapes of `strconv.Quote`. -/
def url.parseError (rawURL : List Char) (err : String) : String :=
  "parse \"" ++ String.mk rawURL ++ "\": " ++ err

/-- The function `url.Parse`: the fragment is cut off at the first `#`, the rest is parsed, then the
fragment is set. -/
def url.Parse (rawURL : List Char) : Except String URL :=
  match url.parse (cut '#' rawURL).1 with
  | .error err => .error (url.parseError (cut '#' rawURL).1 err)
  | .ok u =>
    match (cut '#' rawURL).2 with
    | none => .ok u
    | some [] => .ok u
    | some frag =>
      match u.setFragment frag with
      | .error err => .error (url.parseError rawURL err)
      | .ok u => .ok u

/-- The method `URL.EscapedPath`. -/
def URL.EscapedPath (u : URL) : List Char :=
  if u.RawPath ≠ [] ∧ validEncoded u.RawPath .encodePath
      ∧ unescape u.RawPath .encodePath = .ok u.Path then u.RawPath
  else if u.Path = ['*'.toNat] then ['*']
  else escape u.Path .encodePath

/-- The method `URL.EscapedFragment`. -/
def URL.EscapedFragment (u : URL) : List Char :=
  if u.RawFragment ≠ [] ∧ validEncoded u.RawFragment .encodeFragment
      ∧ unescape u.RawFragment .encodeFragment = .ok u.Fragment then u.RawFragment
  else escape u.Fragment .encodeFragment

/-- The method `Userinfo.String`. -/
def Userinfo.String (ui : Userinfo) : List Char :=
  escape ui.username .encodeUserPassword ++
    (match ui.password with
      | some password => ':' :: escape password .encodeUserPassword
      | none => [])

/-- The method `URL.String`. -/
def URL.String (u : URL) : List Char :=
  let buf : List Char := if u.Scheme ≠ [] then u.Scheme ++ [':'] else []
  let buf : List Char :=
    if u.Opaque ≠ [] then buf ++ u.Opaque
    else
      let buf : List Char :=
        if u.Scheme ≠ [] ∨ u.Host ≠ [] ∨ u.User.isSome then
          if u.OmitHost ∧ u.Host = [] ∧ u.User.isNone then buf
          else
            (if u.Host ≠ [] ∨ u.Path ≠ [] ∨ u.User.isSome then buf ++ ['/', '/'] else buf)
              ++ (match u.User with
                | some ui => ui.String ++ ['@']
                | none => [])
              ++ escape u.Host .encodeHost
        else buf
      let path := u.EscapedPath
      let buf : List Char :=
        if path ≠ [] ∧ path.head? ≠ some '/' ∧ u.Host ≠ [] then buf ++ ['/'] else buf
      let buf : List Char :=
        if buf = [] ∧ ':' ∈ (cut '/' path).1 then ['.', '/'] else buf
      buf ++ path
  let buf : List Char :=
    if u.ForceQuery ∨ u.RawQuery ≠ [] then buf ++ '?' :: u.RawQuery else buf
  if u.Fragment ≠ [] then buf ++ '#' :: u.EscapedFragment else buf

/-- The function `removeEmptyPort` of `net/http`: a host that ends in a colon after its last `]`
loses the colon. -/
def removeEmptyPort (host : List Nat) : List Nat :=
  if host.getLast? = some ':'.toNat then host.dropLast else host

/-! ## Package `net/http`: the client -/

/-- The struct `http.Client`: its transport, which answers a request for a URL, written as
`req.URL.String()` gives it, with an error or with a response whose body `ioutil.ReadAll` reads.
A response is taken as final: redirects, cookies and timeouts of the client are left out. -/
structure Client where
  Transport : String → Except GoError Body

/-- The method `Client.Get`, followed by the read of the body. `http.NewRequest` parses the URL with
`url.Parse` and fails, without any request, when it does not parse; it removes an empty port from
the host; the request the transport receives carries the URL as `URL.String` writes it back. The
first component lists the URLs the transport has received, in order. -/
def Client.Get (c : Client) (rawurl : String) : List String × Except GoError Body :=
  match url.Parse rawurl.data with
  | .error err => ([], .error (.parse err))
  | .ok u =>
    let requested := String.mk (URL.String { u with Host := removeEmptyPort u.Host })
    ([requested], c.Transport requested)

/-! ## The random service client -/

/-- The struct `RandomService`. -/
structure RandomService where
  BaseUrl : String
  Client : Client

/-- The method `RandomService.next`. The first component lists the URLs that the transport of the
client has received, in order. -/
def RandomService.next (s : RandomService) (min max num : Int) :
    List String × Except GoError (List Int) :=
  let (requests, resp) :=
    s.Client.Get
      (s.BaseUrl ++ "/next?min=" ++ fmtD min ++ "&max=" ++ fmtD max ++ "&num=" ++ fmtD num)
  match resp with
  | .error err => (requests, .error err)
  | .ok body =>
    let (rand, err) := json.Unmarshal body .new
    match err with
    | some err => (requests, .error err)
    | none => (requests, .ok rand.Values)

/-! ## The handler of `/next` -/

/-- The function `randomColorHandler`, with the package variable `randomSvc` as an argument. The first
component lists the URLs requested from the random service. -/
def randomColorHandler (randomSvc : RandomService) (w : ResponseWriter) :
    List String × Except String ResponseWriter :=
  let (requests, result) := randomSvc.next 0 255 3
  match result with
  | .error err => (requests, (ErrorResponse.mk err.Error).render w http.StatusBadRequest)
  | .ok vals =>
    if h : vals.length ≠ 3 then
      (requests, (ErrorResponse.mk
        "Invalid response from random service: wrong number of random  numbers received.").render
        w http.StatusBadRequest)
    else
      let hex := fmt02x vals[0] ++ fmt02x vals[1] ++ fmt02x vals[2]
      let res : ColorResponse :=
        { Hex := "#" ++ hex
          R := (vals[0] % 256).toNat
          G := (vals[1] % 256).toNat
          B := (vals[2] % 256).toNat }
      (requests, res.render w)

/-! ## The server status and the readiness check -/

/-- The type `ServerStatus` with its three constants; the variable `serverStatus` holds no other
value. -/
inductive ServerStatus
  | Starting
  | Running
  | ShuttingDown
  deriving DecidableEq, Repr

/-- The value of each constant: `iota` counts from zero. -/
def ServerStatus.toNat : ServerStatus → Nat
  | .Starting => 0
  | .Running => 1
  | .ShuttingDown => 2

/-- The method `ServerStatus.String`: the array of names indexed by the status. -/
def ServerStatus.String (s : ServerStatus) : String :=
  ["starting", "running", "shutting down"].get ⟨s.toNat, by cases s <;> decide⟩

/-- A readiness check: a function without arguments that returns an error or nil. It reads the package
variable `serverStatus`, here its argument; the result is the text of the error, if any. -/
abbrev Check := ServerStatus → Option String

/-- The readiness checks of a `healthcheck.Handler`, by name. -/
structure HealthHandler where
  readinessChecks : List (String × Check)

/-- The handler that `healthcheck.NewMetricsHandler` returns: no check registered. -/
def HealthHandler.new : HealthHandler := ⟨[]⟩

/-- The method `AddReadinessCheck`: stores the check under its name. -/
def HealthHandler.AddReadinessCheck (h : HealthHandler) (name : String) (check : Check) :
    HealthHandler :=
  ⟨(name, check) :: h.readinessChecks.filter (fun nc => nc.1 != name)⟩

/-- The check stored under a name. -/
def HealthHandler.readinessCheck (h : HealthHandler) (name : String) : Option Check :=
  (h.readinessChecks.find? (fun nc => nc.1 == name)).map (fun nc => nc.2)

/-- The function `initHealthcheck`, with the package variable `health` as an argument. -/
def initHealthcheck (health : HealthHandler) : HealthHandler :=
  health.AddReadinessCheck "http" (fun serverStatus =>
    if serverStatus = .Running then none
    else some ("HTTP server is " ++ serverStatus.String))

/-! ## The lifecycle of `main` -/

/-- Where `main` stands. -/
inductive Pc
  /-- Before `initConfig`. -/
  | entry
  /-- After `initConfig`, `initRandomService` and `initAdminServer`, before `net.Listen`. -/
  | configured
  /-- After `go server.Serve(listener)`, before `serverStatus = Running`. -/
  | bound
  /-- After `serverStatus = Running`, waiting at `<-shutdown`. -/
  | serving
  /-- After the receive from `shutdown`, before `serverStatus = ShuttingDown`. -/
  | signalled
  /-- After `serverStatus = ShuttingDown`, inside `server.Shutdown`. -/
  | draining
  /-- The process is over, with its exit code: `log.Fatal` or the return from `main`. -/
  | exited (code : Nat)
  deriving DecidableEq, Repr

/-- What decides the next step of `main`. -/
inductive Event
  /-- The call `envconfig.Process` returns nil. -/
  | configLoaded
  /-- The call `envconfig.Process` returns an error. -/
  | configError
  /-- The call `net.Listen` returns a listener. -/
  | listenOk
  /-- The call `net.Listen` returns an error. -/
  | listenError
  /-- The next statement, an assignment to `serverStatus`, is executed. -/
  | assign
  /-- An interrupt signal is delivered on the channel `shutdown`. -/
  | interrupt
  /-- The call `server.Shutdown` returns nil. -/
  | shutdownOk
  /-- The call `server.Shutdown` returns an error (the timeout has passed). -/
  | shutdownError
  deriving DecidableEq, Repr

/-- The state of the process: where `main` stands and the package variable `serverStatus`. -/
structure MainState where
  pc : Pc
  serverStatus : ServerStatus
  deriving DecidableEq, Repr

/-- The state at the start: `var serverStatus = Starting`. -/
def MainState.init : MainState := ⟨.entry, .Starting⟩

/-- One step of `main`. The channel `shutdown` has no buffer, so an interrupt that arrives while `main`
is not waiting at `<-shutdown` is dropped and changes nothing. -/
def mainStep (s : MainState) (e : Event) : Option MainState :=
  match s.pc, e with
  | .entry, .configLoaded => some { s with pc := .configured }
  | .entry, .configError => some { s with pc := .exited 1 }
  | .configured, .listenOk => some { s with pc := .bound }
  | .configured, .listenError => some { s with pc := .exited 1 }
  | .bound, .assign => some { pc := .serving, serverStatus := .Running }
  | .serving, .interrupt => some { s with pc := .signalled }
  | .signalled, .assign => some { pc := .draining, serverStatus := .ShuttingDown }
  | .draining, .shutdownOk => some { s with pc := .exited 0 }
  | .draining, .shutdownError => some { s with pc := .exited 1 }
  | .entry, .interrupt => some s
  | .configured, .interrupt => some s
  | .bound, .interrupt => some s
  | .signalled, .interrupt => some s
  | .draining, .interrupt => some s
  | _, _ => none

/-- A run of `main`: the steps taken on a list of events, none when an event cannot occur where
`main` stands. -/
def run (s : MainState) : List Event → Option MainState
  | [] => some s
  | e :: es => (mainStep s e).bind (fun s => run s es)

/-- The invariant of the lifecycle: the value of `serverStatus` at each place of `main`. -/
def MainState.consistent (s : MainState) : Bool :=
  match s.pc with
  | .entry => s.serverStatus == .Starting
  | .configured => s.serverStatus == .Starting
  | .bound => s.serverStatus == .Starting
  | .serving => s.serverStatus == .Running
  | .signalled => s.serverStatus == .Running
  | .draining => s.serverStatus == .ShuttingDown
  | .exited _ => true

/-! ## Notions of the specification -/

/-- Whether a character is unreserved in a URL: an ASCII letter or digit or one of `-`, `.`, `_`,
`~`. -/
def isUnreserved (c : Char) : Bool :=
  isAlnum c.toNat || c == '-' || c == '.' || c == '_' || c == '~'

/-- Whether a text is a port: empty, or a colon followed by one or more digits. -/
def isPort : List Char → Bool
  | [] => true
  | c :: ds => c == ':' && !ds.isEmpty && ds.all (fun d => '0' ≤ d && d ≤ '9')

/-- Whether a text is a plain path: empty or starting with a slash, and made of unreserved
characters and slashes. -/
def isPlainPath (p : List Char) : Bool :=
  (p.isEmpty || p.head? == some '/') && p.all (fun c => isUnreserved c || c == '/')

/-- The two-digit, zero-padded, lowercase hexadecimal form of a byte. -/
def zeroPad2Hex (v : Nat) : String :=
  String.mk [Nat.digitChar (v / 16), Nat.digitChar (v % 16)]

/-- Whether a body has the expected shape: an object with the one member `values`, an array of
integers. -/
def JSON.isExpectedShape : JSON → Bool
  | .obj [("values", .arr items)] =>
    items.all (fun j => match j with
      | .int _ => true
      | _ => false)
  | _ => false

/-- Whether an array item can be stored in an `int`: `null` or an integer literal within the range
of `int`. -/
def JSON.fitsInt : JSON → Bool
  | .null => true
  | .int i => decide (minInt ≤ i ∧ i ≤ maxInt)
  | _ => false

/-- Whether a member value can be stored in `Values []int`: `null` or an array of items that fit. -/
def JSON.fitsValues : JSON → Bool
  | .null => true
  | .arr items => items.all JSON.fitsInt
  | _ => false

/-- Whether a JSON value can be stored in a `RandomResponse`: `null`, or an object in which every
member that selects the field `values` fits it. -/
def JSON.fitsRandomResponse : JSON → Bool
  | .null => true
  | .obj members => members.all (fun kv => !matchesValues kv.1 || kv.2.fitsValues)
  | _ => false

/-! ## Test doubles -/

/-- The random service of `getTestRandomService`: the default base URL and a client that answers every
request with the given body. -/
def testRandomService (body : Body) : RandomService :=
  ⟨"http://localhost/random", ⟨fun _ => .ok body⟩⟩

/-- A random service with the given base URL whose transport answers every request with the given
body. -/
def randomServiceAt (baseUrl : String) (body : Body) : RandomService :=
  ⟨baseUrl, ⟨fun _ => .ok body⟩⟩

/-- A random service whose transport fails every request with the given error. -/
def failingRandomService (err : GoError) : RandomService :=
  ⟨"http://localhost/random", ⟨fun _ => .error err⟩⟩

/-- The body with the member `values` holding the given integers. -/
def valuesBody (ints : List Int) : Body :=
  .ok (.obj [("values", .arr (ints.map JSON.int))])

/-! ## Lemmas on formatting and encoding -/

theorem digitChar_of_ge (n : Nat) (h : 16 ≤ n) : Nat.digitChar n = '*' := by
  unfold Nat.digitChar
  repeat (rw [if_neg (by omega)])

theorem htmlSafe_digitChar (n : Nat) : htmlSafe (Nat.digitChar n) = true := by
  by_cases h : n < 16
  · interval_cases n <;> decide
  · rw [digitChar_of_ge n (by omega)]; decide

theorem digitChar_ne_minus (n : Nat) : Nat.digitChar n ≠ '-' := by
  by_cases h : n < 16
  · interval_cases n <;> decide
  · rw [digitChar_of_ge n (by omega)]; decide

theorem jsonEscapeChar_of_safe (c : Char) (h : htmlSafe c = true) : jsonEscapeChar c = [c] := by
  have h1 : c.toNat < 0x80 := by
    simp only [htmlSafe, Bool.and_eq_true, decide_eq_true_eq] at h
    exact h.1.1.1.1.1.2
  simp [jsonEscapeChar, h1, h]

theorem flatMap_jsonEscapeChar_of_safe (l : List Char) (h : ∀ c ∈ l, htmlSafe c = true) :
    l.flatMap jsonEscapeChar = l := by
  induction l with
  | nil => rfl
  | cons c cs ih =>
    have hc := jsonEscapeChar_of_safe c (h c (List.mem_cons_self _ _))
    have hcs := ih (fun d hd => h d (List.mem_cons_of_mem _ hd))
    simp [List.flatMap_cons, hc, hcs]

theorem jsonString_of_safe (s : String) (h : ∀ c ∈ s.data, htmlSafe c = true) :
    jsonString s = "\"" ++ s ++ "\"" := by
  apply String.ext
  simp [jsonString, flatMap_jsonEscapeChar_of_safe s.data h]

theorem fmtDigits_eq_toDigitsCore (base : Nat) (hb : 2 ≤ base) :
    ∀ (fuel u : Nat) (acc : List Char), u ≤ fuel →
      fmtDigits base fuel u acc = Nat.toDigitsCore base (fuel + 1) u acc := by
  intro fuel
  induction fuel with
  | zero =>
    intro u acc hu
    have : u = 0 := by omega
    subst this
    simp [fmtDigits, Nat.toDigitsCore]
  | succ fuel ih =>
    intro u acc hu
    by_cases hlt : base ≤ u
    · have hdiv : u / base ≠ 0 := by
        have := Nat.div_pos hlt (by omega : 0 < base)
        omega
      have hle : u / base ≤ fuel := by
        have := Nat.div_lt_self (by omega : 0 < u) (by omega : 1 < base)
        omega
      rw [fmtDigits, if_pos hlt, ih _ _ hle]
      conv => rhs; rw [Nat.toDigitsCore]
      simp [hdiv]
    · have hdiv : u / base = 0 := Nat.div_eq_of_lt (by omega)
      have hmod : u % base = u := Nat.mod_eq_of_lt (by omega)
      rw [fmtDigits, if_neg hlt]
      conv => rhs; rw [Nat.toDigitsCore]
      simp [hdiv, hmod]

theorem fmtDigits_eq_toDigits (base : Nat) (hb : 2 ≤ base) (u : Nat) :
    fmtDigits base u u [] = Nat.toDigits base u := by
  rw [fmtDigits_eq_toDigitsCore base hb u u [] (le_refl _)]
  rfl

theorem fmtD_eq_toString (v : Int) : fmtD v = toString v := by
  cases v with
  | ofNat n =>
    have h : ¬ ((Int.ofNat n) < 0) := by simp
    simp only [fmtD, fmtInteger, h, decide_False]
    simp [fmtDigits_eq_toDigits, toString, Nat.repr, List.asString]
  | negSucc n =>
    have h : (Int.negSucc n) < 0 := Int.negSucc_lt_zero n
    simp only [fmtD, fmtInteger, h, decide_True]
    simp [fmtDigits_eq_toDigits, toString, Nat.repr, List.asString]
    rfl


theorem fmtDigits_of_lt (base fuel u : Nat) (acc : List Char) (h : u < base) :
    fmtDigits base fuel u acc = Nat.digitChar u :: acc := by
  cases fuel with
  | zero => rfl
  | succ fuel => rw [fmtDigits, if_neg (by omega)]

theorem fmtDigits_of_le (base fuel u : Nat) (acc : List Char) (h : base ≤ u) :
    fmtDigits base (fuel + 1) u acc
      = fmtDigits base fuel (u / base) (Nat.digitChar (u % base) :: acc) := by
  rw [fmtDigits, if_pos h]

theorem fmtDigits_length (base : Nat) :
    ∀ (fuel u : Nat) (acc : List Char), acc.length + 1 ≤ (fmtDigits base fuel u acc).length := by
  intro fuel
  induction fuel with
  | zero => intro u acc; simp [fmtDigits]
  | succ fuel ih =>
    intro u acc
    rw [fmtDigits]
    split_ifs with h
    · have := ih (u / base) (Nat.digitChar (u % base) :: acc)
      simp only [List.length_cons] at this
      omega
    · simp

theorem fmtDigits_mem (base : Nat) :
    ∀ (fuel u : Nat) (acc : List Char) (c : Char), c ∈ fmtDigits base fuel u acc →
      c ∈ acc ∨ ∃ n, c = Nat.digitChar n := by
  intro fuel
  induction fuel with
  | zero =>
    intro u acc c hc
    simp only [fmtDigits, List.mem_cons] at hc
    rcases hc with hc | hc
    · exact Or.inr ⟨u, hc⟩
    · exact Or.inl hc
  | succ fuel ih =>
    intro u acc c hc
    rw [fmtDigits] at hc
    split_ifs at hc with h
    · rcases ih _ _ _ hc with h1 | h1
      · simp only [List.mem_cons] at h1
        rcases h1 with h1 | h1
        · exact Or.inr ⟨_, h1⟩
        · exact Or.inl h1
      · exact Or.inr h1
    · simp only [List.mem_cons] at hc
      rcases hc with hc | hc
      · exact Or.inr ⟨u, hc⟩
      · exact Or.inl hc

theorem fmtInteger_safe (v : Int) (base : Nat) (zero : Bool) (wid : Option Nat) :
    ∀ c ∈ fmtInteger v base zero wid, htmlSafe c = true := by
  intro c hc
  have hd : ∀ d ∈ fmtDigits base v.natAbs v.natAbs [], htmlSafe d = true := by
    intro d hd
    rcases fmtDigits_mem base _ _ _ d hd with h | ⟨n, rfl⟩
    · simp at h
    · exact htmlSafe_digitChar n
  simp only [fmtInteger, List.mem_append, List.mem_replicate] at hc
  rcases hc with ⟨_, rfl⟩ | hc
  · decide
  · split_ifs at hc
    · simp only [List.mem_cons, List.mem_append, List.mem_replicate] at hc
      rcases hc with rfl | ⟨_, rfl⟩ | hc
      · decide
      · decide
      · exact hd c hc
    · simp only [List.mem_append, List.mem_replicate] at hc
      rcases hc with ⟨_, rfl⟩ | hc
      · decide
      · exact hd c hc

theorem fmt02x_natCast (n : Nat) :
    fmt02x (n : Int) = String.mk
      (List.replicate (2 - (List.replicate (2 - (fmtDigits 16 n n []).length) '0'
          ++ fmtDigits 16 n n []).length) ' '
        ++ (List.replicate (2 - (fmtDigits 16 n n []).length) '0' ++ fmtDigits 16 n n [])) := by
  have hneg : ¬ ((n : Int) < 0) := Int.not_lt.mpr (Int.ofNat_nonneg n)
  simp only [fmt02x, fmtInteger, hneg, decide_False, Int.natAbs_ofNat, Option.getD_some,
    Bool.false_eq_true, if_false]

theorem fmt02x_of_byte (n : Nat) (h : n < 256) : fmt02x (n : Int) = zeroPad2Hex n := by
  rw [fmt02x_natCast]
  by_cases h16 : n < 16
  · have hdiv : n / 16 = 0 := Nat.div_eq_of_lt h16
    have hmod : n % 16 = n := Nat.mod_eq_of_lt h16
    simp [zeroPad2Hex, fmtDigits_of_lt 16 n n [] h16, hdiv, hmod, List.replicate]
    rfl
  · obtain ⟨m, rfl⟩ : ∃ m, n = m + 1 := ⟨n - 1, by omega⟩
    have hlt : (m + 1) / 16 < 16 := by omega
    simp [zeroPad2Hex, fmtDigits_of_le 16 m (m + 1) [] (by omega),
      fmtDigits_of_lt 16 m ((m + 1) / 16) _ hlt]

theorem fmt02x_length_of_nonneg (v : Int) (h : 0 ≤ v) : 2 ≤ (fmt02x v).length := by
  have hneg : ¬ (v < 0) := by omega
  have := fmtDigits_length 16 v.natAbs v.natAbs []
  simp only [fmt02x, fmtInteger, String.length, hneg, decide_False, List.length_append,
    List.length_replicate, Option.getD_some, Bool.false_eq_true, if_false]
  simp only [List.length_nil] at this
  omega

theorem fmt02x_length_of_large (v : Int) (h : 256 ≤ v) : 3 ≤ (fmt02x v).length := by
  have hneg : ¬ (v < 0) := by omega
  obtain ⟨k, hk⟩ : ∃ k, v.natAbs = k + 2 := ⟨v.natAbs - 2, by omega⟩
  have h1 : 16 ≤ k + 2 := by omega
  have h2 : 16 ≤ (k + 2) / 16 := by omega
  have := fmtDigits_length 16 k ((k + 2) / 16 / 16)
    [Nat.digitChar ((k + 2) / 16 % 16), Nat.digitChar ((k + 2) % 16)]
  simp only [fmt02x, fmtInteger, String.length, hneg, decide_False, List.length_append,
    List.length_replicate, Option.getD_some, Bool.false_eq_true, if_false, hk,
    fmtDigits_of_le 16 (k + 1) (k + 2) [] h1, fmtDigits_of_le 16 k ((k + 2) / 16) _ h2]
  simp only [List.length_cons, List.length_nil] at this
  omega

theorem minus_mem_fmt02x_of_neg (v : Int) (h : v < 0) : '-' ∈ (fmt02x v).data := by
  simp only [fmt02x, fmtInteger, h, decide_True, if_true, List.mem_append, List.mem_cons]
  exact Or.inr (Or.inl trivial)

theorem minus_not_mem_zeroPad2Hex (n : Nat) : '-' ∉ (zeroPad2Hex n).data := by
  simp only [zeroPad2Hex, List.mem_cons, List.mem_singleton, List.not_mem_nil, or_false, not_or]
  exact ⟨fun h => digitChar_ne_minus _ h.symm, fun h => digitChar_ne_minus _ h.symm⟩

theorem fmt02x_of_range (v : Int) (h0 : 0 ≤ v) (h1 : v ≤ 255) :
    fmt02x v = zeroPad2Hex v.toNat := by
  have hv : ((v.toNat : Nat) : Int) = v := Int.toNat_of_nonneg h0
  have := fmt02x_of_byte v.toNat (by omega)
  rwa [hv] at this

theorem zeroPad2Hex_length (n : Nat) : (zeroPad2Hex n).data.length = 2 := rfl

theorem hex_eq_iff (v0 v1 v2 : Int) :
    "#" ++ (fmt02x v0 ++ fmt02x v1 ++ fmt02x v2)
        = "#" ++ (zeroPad2Hex (v0 % 256).toNat ++ zeroPad2Hex (v1 % 256).toNat
            ++ zeroPad2Hex (v2 % 256).toNat)
      ↔ (0 ≤ v0 ∧ v0 ≤ 255) ∧ (0 ≤ v1 ∧ v1 ≤ 255) ∧ (0 ≤ v2 ∧ v2 ≤ 255) := by
  constructor
  · intro h
    have hd := congrArg String.data h
    simp only [String.data_append, List.append_cancel_left_eq] at hd
    have hno : ∀ c ∈ (fmt02x v0).data ++ (fmt02x v1).data ++ (fmt02x v2).data, c ≠ '-' := by
      intro c hc hcm
      rw [hd, hcm] at hc
      simp only [List.mem_append] at hc
      rcases hc with (hc | hc) | hc
      · exact minus_not_mem_zeroPad2Hex _ hc
      · exact minus_not_mem_zeroPad2Hex _ hc
      · exact minus_not_mem_zeroPad2Hex _ hc
    have hn0 : 0 ≤ v0 := by
      by_contra hneg
      exact hno _ (by simp [minus_mem_fmt02x_of_neg v0 (by omega)]) rfl
    have hn1 : 0 ≤ v1 := by
      by_contra hneg
      exact hno _ (by simp [minus_mem_fmt02x_of_neg v1 (by omega)]) rfl
    have hn2 : 0 ≤ v2 := by
      by_contra hneg
      exact hno _ (by simp [minus_mem_fmt02x_of_neg v2 (by omega)]) rfl
    have hl := congrArg List.length hd
    simp only [List.length_append, zeroPad2Hex_length] at hl
    have l0 := fmt02x_length_of_nonneg v0 hn0
    have l1 := fmt02x_length_of_nonneg v1 hn1
    have l2 := fmt02x_length_of_nonneg v2 hn2
    simp only [String.length] at l0 l1 l2
    refine ⟨⟨hn0, ?_⟩, ⟨hn1, ?_⟩, ⟨hn2, ?_⟩⟩
    · by_contra hbig
      have := fmt02x_length_of_large v0 (by omega)
      simp only [String.length] at this
      omega
    · by_contra hbig
      have := fmt02x_length_of_large v1 (by omega)
      simp only [String.length] at this
      omega
    · by_contra hbig
      have := fmt02x_length_of_large v2 (by omega)
      simp only [String.length] at this
      omega
  · rintro ⟨⟨a0, b0⟩, ⟨a1, b1⟩, ⟨a2, b2⟩⟩
    have e0 : v0 % 256 = v0 := Int.emod_eq_of_lt a0 (by omega)
    have e1 : v1 % 256 = v1 := Int.emod_eq_of_lt a1 (by omega)
    have e2 : v2 % 256 = v2 := Int.emod_eq_of_lt a2 (by omega)
    rw [e0, e1, e2, fmt02x_of_range v0 a0 b0, fmt02x_of_range v1 a1 b1, fmt02x_of_range v2 a2 b2]

/-! ## Lemmas on the handler -/

theorem fmt02x_safe (v : Int) : ∀ c ∈ (fmt02x v).data, htmlSafe c = true :=
  fmtInteger_safe v 16 true (some 2)

theorem hex_safe (v0 v1 v2 : Int) :
    ∀ c ∈ ("#" ++ (fmt02x v0 ++ fmt02x v1 ++ fmt02x v2)).data, htmlSafe c = true := by
  intro c hc
  simp only [String.data_append, List.mem_append] at hc
  rcases hc with hc | (hc | hc) | hc
  · have : c = '#' := by simpa using hc
    subst this; decide
  · exact fmt02x_safe v0 c hc
  · exact fmt02x_safe v1 c hc
  · exact fmt02x_safe v2 c hc

theorem toNat_emod_byte (v : Int) : (((v % 256).toNat : Nat) : Int) = v % 256 :=
  Int.toNat_of_nonneg (Int.emod_nonneg v (by decide))

theorem renderColor_fresh (v : ColorResponse) :
    v.render .fresh = .ok
      ⟨[("Content-Type", "application/json")], some 200, (json.MarshalColorResponse v).1⟩ := by
  rfl

theorem randomColorHandler_three (svc : RandomService) (w : ResponseWriter) (v0 v1 v2 : Int)
    (h : (svc.next 0 255 3).2 = .ok [v0, v1, v2]) :
    (randomColorHandler svc w).2 = ColorResponse.render
      { Hex := "#" ++ (fmt02x v0 ++ fmt02x v1 ++ fmt02x v2)
        R := (v0 % 256).toNat
        G := (v1 % 256).toNat
        B := (v2 % 256).toNat } w := by
  rcases hn : svc.next 0 255 3 with ⟨reqs, r⟩
  rw [hn] at h
  simp only at h
  subst h
  simp [randomColorHandler, hn]

theorem randomColorHandler_three_body (svc : RandomService) (v0 v1 v2 : Int)
    (h : (svc.next 0 255 3).2 = .ok [v0, v1, v2]) :
    (randomColorHandler svc .fresh).2 = .ok
      ⟨[("Content-Type", "application/json")], some 200,
        "\x7b\"hex\":\"#" ++ fmt02x v0 ++ fmt02x v1 ++ fmt02x v2 ++ "\",\"r\":"
          ++ toString (v0 % 256) ++ ",\"g\":" ++ toString (v1 % 256) ++ ",\"b\":"
          ++ toString (v2 % 256) ++ "\x7d"⟩ := by
  rw [randomColorHandler_three svc .fresh v0 v1 v2 h, renderColor_fresh]
  have e1 : "\x7b\"hex\":\"#" = "\x7b\"hex\":" ++ ("\"" ++ "#") := by decide
  have e2 : "\",\"r\":" = "\"" ++ ",\"r\":" := by decide
  simp only [json.MarshalColorResponse, jsonString_of_safe _ (hex_safe v0 v1 v2),
    fmtD_eq_toString, toNat_emod_byte]
  simp only [e1, e2, String.append_assoc]

theorem renderError_badRequest (e : ErrorResponse) :
    e.render .fresh http.StatusBadRequest = .ok
      ⟨[("X-Content-Type-Options", "nosniff"), ("Content-Type", "text/plain; charset=utf-8")],
        some 400, "\x7b\"error\":" ++ jsonString e.Error ++ "\x7d" ++ "\n"⟩ := by
  simp [ErrorResponse.render, json.MarshalErrorResponse, http.Error, ResponseWriter.WriteHeader,
    ResponseWriter.setHeader, ResponseWriter.fresh, ResponseWriter.Write, bodyAllowedForStatus,
    http.StatusBadRequest, bind, Except.bind, pure, Except.pure]

theorem randomColorHandler_error (svc : RandomService) (w : ResponseWriter) (e : GoError)
    (h : (svc.next 0 255 3).2 = .error e) :
    (randomColorHandler svc w).2 = (ErrorResponse.mk e.Error).render w http.StatusBadRequest := by
  rcases hn : svc.next 0 255 3 with ⟨reqs, r⟩
  rw [hn] at h
  simp only at h
  subst h
  simp [randomColorHandler, hn]

theorem randomColorHandler_wrong_count (svc : RandomService) (w : ResponseWriter)
    (vals : List Int) (h : (svc.next 0 255 3).2 = .ok vals) (hlen : vals.length ≠ 3) :
    (randomColorHandler svc w).2 = (ErrorResponse.mk
      "Invalid response from random service: wrong number of random  numbers received.").render
      w http.StatusBadRequest := by
  rcases hn : svc.next 0 255 3 with ⟨reqs, r⟩
  rw [hn] at h
  simp only at h
  subst h
  simp [randomColorHandler, hn, hlen]

theorem next_requests (s : RandomService) (min max num : Int) :
    (s.next min max num).1
      = (s.Client.Get (s.BaseUrl ++ "/next?min=" ++ fmtD min ++ "&max=" ++ fmtD max ++ "&num="
          ++ fmtD num)).1 := by
  unfold RandomService.next
  simp only
  split
  · rfl
  · split <;> rfl

theorem randomColorHandler_requests (svc : RandomService) (w : ResponseWriter) :
    (randomColorHandler svc w).1 = (svc.next 0 255 3).1 := by
  unfold randomColorHandler
  rcases svc.next 0 255 3 with ⟨reqs, r⟩
  simp only
  split
  · rfl
  · split <;> rfl

/-! ## Lemmas on decoding -/

theorem decodeInt_error_of_not_fits (j : JSON) (h : j.fitsInt = false) :
    ∃ e, decodeInt j = .error e ∧ e.isDecodeError = true := by
  cases j with
  | null => simp [JSON.fitsInt] at h
  | int i =>
    simp only [JSON.fitsInt, decide_eq_false_iff_not] at h
    exact ⟨.unmarshalType ("number " ++ fmtD i) "int" "RandomResponse.values",
      by simp only [decodeInt, if_neg h], rfl⟩
  | bool b => exact ⟨_, rfl, rfl⟩
  | float lit => exact ⟨_, rfl, rfl⟩
  | str s => exact ⟨_, rfl, rfl⟩
  | arr items => exact ⟨_, rfl, rfl⟩
  | obj members => exact ⟨_, rfl, rfl⟩

theorem decodeInt_ok_of_fits (j : JSON) (h : j.fitsInt = true) : ∃ v, decodeInt j = .ok v := by
  cases j with
  | null => exact ⟨none, rfl⟩
  | int i =>
    simp only [JSON.fitsInt, decide_eq_true_eq] at h
    exact ⟨some i, by simp only [decodeInt, if_pos h]⟩
  | bool b => simp [JSON.fitsInt] at h
  | float lit => simp [JSON.fitsInt] at h
  | str s => simp [JSON.fitsInt] at h
  | arr items => simp [JSON.fitsInt] at h
  | obj members => simp [JSON.fitsInt] at h

/-- An error, once saved, is the error returned. -/
theorem decodeArray_saved (items : List JSON) (pool : List Int) (e : GoError) :
    (decodeArray items pool (some e)).2 = some e := by
  induction items generalizing pool with
  | nil => rfl
  | cons j rest ih =>
    cases hj : decodeInt j with
    | ok v => simp only [decodeArray, hj, ih]
    | error err => simp only [decodeArray, hj, saveError, ih]

theorem decodeArray_none_iff (items : List JSON) (pool : List Int) :
    (decodeArray items pool none).2 = none ↔ items.all JSON.fitsInt = true := by
  induction items generalizing pool with
  | nil => simp [decodeArray]
  | cons j rest ih =>
    cases hf : j.fitsInt with
    | true =>
      obtain ⟨v, hv⟩ := decodeInt_ok_of_fits j hf
      simp only [decodeArray, hv, List.all_cons, hf, Bool.true_and]
      exact ih pool.tail
    | false =>
      obtain ⟨e, he, _⟩ := decodeInt_error_of_not_fits j hf
      simp only [decodeArray, he, saveError, decodeArray_saved, List.all_cons, hf,
        Bool.false_and]
      simp

theorem decodeArray_decodeError (items : List JSON) (pool : List Int) (saved : Option GoError)
    (hs : ∀ e, saved = some e → e.isDecodeError = true) :
    ∀ e, (decodeArray items pool saved).2 = some e → e.isDecodeError = true := by
  induction items generalizing pool saved with
  | nil => intro e he; exact hs e he
  | cons j rest ih =>
    intro e he
    cases hj : decodeInt j with
    | ok v =>
      simp only [decodeArray, hj] at he
      exact ih pool.tail saved hs e he
    | error err =>
      simp only [decodeArray, hj] at he
      refine ih pool.tail (saveError saved err) ?_ e he
      intro e1 h1
      cases saved with
      | some e0 =>
        simp only [saveError] at h1
        exact hs e1 h1
      | none =>
        simp only [saveError, Option.some.injEq] at h1
        subst h1
        cases hf : j.fitsInt with
        | true =>
          obtain ⟨v, hv⟩ := decodeInt_ok_of_fits j hf
          rw [hv] at hj
          cases hj
        | false =>
          obtain ⟨e2, he2, hd⟩ := decodeInt_error_of_not_fits j hf
          rw [he2] at hj
          cases hj
          exact hd

theorem decodeArray_ints (ints : List Int) (pool : List Int)
    (h : ∀ i ∈ ints, minInt ≤ i ∧ i ≤ maxInt) :
    decodeArray (ints.map JSON.int) pool none = (ints, none) := by
  induction ints generalizing pool with
  | nil => rfl
  | cons i rest ih =>
    have hi := h i (List.mem_cons_self _ _)
    have hr := ih pool.tail (fun k hk => h k (List.mem_cons_of_mem _ hk))
    simp only [List.map_cons, decodeArray, decodeInt, if_pos hi, hr, Option.getD_some]

theorem decodeValues_saved (j : JSON) (r : RandomResponse) (e : GoError) :
    (decodeValues j r (some e)).2 = some e := by
  cases j with
  | arr items => cases items <;> simp [decodeValues, decodeArray_saved]
  | null => rfl
  | bool b => rfl
  | int i => rfl
  | float lit => rfl
  | str s => rfl
  | obj members => rfl

theorem decodeValues_none_iff (j : JSON) (r : RandomResponse) :
    (decodeValues j r none).2 = none ↔ j.fitsValues = true := by
  cases j with
  | arr items =>
    cases items with
    | nil => simp [decodeValues, JSON.fitsValues]
    | cons i rest =>
      simp only [decodeValues, JSON.fitsValues]
      exact decodeArray_none_iff (i :: rest) _
  | null => simp [decodeValues, JSON.fitsValues]
  | bool b => simp [decodeValues, saveError, JSON.fitsValues]
  | int i => simp [decodeValues, saveError, JSON.fitsValues]
  | float lit => simp [decodeValues, saveError, JSON.fitsValues]
  | str s => simp [decodeValues, saveError, JSON.fitsValues]
  | obj members => simp [decodeValues, saveError, JSON.fitsValues]

theorem decodeValues_decodeError (j : JSON) (r : RandomResponse) (saved : Option GoError)
    (hs : ∀ e, saved = some e → e.isDecodeError = true) :
    ∀ e, (decodeValues j r saved).2 = some e → e.isDecodeError = true := by
  intro e he
  cases j with
  | null => exact hs e he
  | arr items =>
    cases items with
    | nil => exact hs e he
    | cons i rest => exact decodeArray_decodeError (i :: rest) _ saved hs e he
  | bool b =>
    cases saved with
    | some e0 => exact hs e he
    | none =>
      simp only [decodeValues, saveError, Option.some.injEq] at he
      subst he; rfl
  | int i =>
    cases saved with
    | some e0 => exact hs e he
    | none =>
      simp only [decodeValues, saveError, Option.some.injEq] at he
      subst he; rfl
  | float lit =>
    cases saved with
    | some e0 => exact hs e he
    | none =>
      simp only [decodeValues, saveError, Option.some.injEq] at he
      subst he; rfl
  | str s =>
    cases saved with
    | some e0 => exact hs e he
    | none =>
      simp only [decodeValues, saveError, Option.some.injEq] at he
      subst he; rfl
  | obj members =>
    cases saved with
    | some e0 => exact hs e he
    | none =>
      simp only [decodeValues, saveError, Option.some.injEq] at he
      subst he; rfl

theorem decodeMembers_saved (members : List (String × JSON)) (r : RandomResponse) (e : GoError) :
    (decodeMembers members r (some e)).2 = some e := by
  induction members generalizing r with
  | nil => rfl
  | cons kv rest ih =>
    obtain ⟨key, j⟩ := kv
    by_cases hk : matchesValues key = true
    · have hv := decodeValues_saved j r e
      rcases hd : decodeValues j r (some e) with ⟨r1, s1⟩
      rw [hd] at hv
      simp only at hv
      subst hv
      simp only [decodeMembers, hk, if_true, hd, ih]
    · simp only [decodeMembers, hk, Bool.false_eq_true, if_false, ih]

theorem decodeMembers_none_iff (members : List (String × JSON)) (r : RandomResponse) :
    (decodeMembers members r none).2 = none
      ↔ members.all (fun kv => !matchesValues kv.1 || kv.2.fitsValues) = true := by
  induction members generalizing r with
  | nil => simp [decodeMembers]
  | cons kv rest ih =>
    obtain ⟨key, j⟩ := kv
    by_cases hk : matchesValues key = true
    · rcases hd : decodeValues j r none with ⟨r1, s1⟩
      have hv := decodeValues_none_iff j r
      rw [hd] at hv
      simp only at hv
      cases s1 with
      | none =>
        have hf : j.fitsValues = true := hv.mp rfl
        simp only [decodeMembers, hk, if_true, hd, List.all_cons, hf, Bool.or_true,
          Bool.true_and]
        exact ih r1
      | some e =>
        have hf : j.fitsValues = false := by
          cases h : j.fitsValues with
          | false => rfl
          | true => exact absurd (hv.mpr h) (by simp)
        simp only [decodeMembers, hk, if_true, hd, decodeMembers_saved, List.all_cons, hf]
        simp
    · have hk2 : matchesValues key = false := by simpa using hk
      simp only [decodeMembers, hk2, Bool.false_eq_true, if_false, List.all_cons, Bool.not_false,
        Bool.true_or, Bool.true_and]
      exact ih r

theorem decodeMembers_decodeError (members : List (String × JSON)) (r : RandomResponse)
    (saved : Option GoError) (hs : ∀ e, saved = some e → e.isDecodeError = true) :
    ∀ e, (decodeMembers members r saved).2 = some e → e.isDecodeError = true := by
  induction members generalizing r saved with
  | nil => intro e he; exact hs e he
  | cons kv rest ih =>
    obtain ⟨key, j⟩ := kv
    intro e he
    by_cases hk : matchesValues key = true
    · rcases hd : decodeValues j r saved with ⟨r1, s1⟩
      have hv := decodeValues_decodeError j r saved hs
      rw [hd] at hv
      simp only [decodeMembers, hk, if_true, hd] at he
      exact ih r1 s1 hv e he
    · simp only [decodeMembers, hk, Bool.false_eq_true, if_false] at he
      exact ih r saved hs e he

theorem unmarshal_none_iff (body : Body) (rand : RandomResponse) :
    (json.Unmarshal body rand).2 = none ↔ ∃ j, body = .ok j ∧ j.fitsRandomResponse = true := by
  cases body with
  | error text => simp [json.Unmarshal]
  | ok j =>
    cases j with
    | obj members =>
      simp only [json.Unmarshal, decodeMembers_none_iff, JSON.fitsRandomResponse,
        Except.ok.injEq, exists_eq_left']
    | null => simp [json.Unmarshal, JSON.fitsRandomResponse]
    | bool b => simp [json.Unmarshal, JSON.fitsRandomResponse]
    | int i => simp [json.Unmarshal, JSON.fitsRandomResponse]
    | float lit => simp [json.Unmarshal, JSON.fitsRandomResponse]
    | str s => simp [json.Unmarshal, JSON.fitsRandomResponse]
    | arr items => simp [json.Unmarshal, JSON.fitsRandomResponse]

theorem unmarshal_decodeError (body : Body) (rand : RandomResponse) (e : GoError)
    (h : (json.Unmarshal body rand).2 = some e) : e.isDecodeError = true := by
  cases body with
  | error text =>
    simp only [json.Unmarshal, Option.some.injEq] at h
    subst h; rfl
  | ok j =>
    cases j with
    | obj members =>
      exact decodeMembers_decodeError members rand none (by simp) e h
    | null => simp [json.Unmarshal] at h
    | bool b => simp only [json.Unmarshal, Option.some.injEq] at h; subst h; rfl
    | int i => simp only [json.Unmarshal, Option.some.injEq] at h; subst h; rfl
    | float lit => simp only [json.Unmarshal, Option.some.injEq] at h; subst h; rfl
    | str s => simp only [json.Unmarshal, Option.some.injEq] at h; subst h; rfl
    | arr items => simp only [json.Unmarshal, Option.some.injEq] at h; subst h; rfl

theorem unmarshal_valuesBody (ints : List Int) (h : ∀ i ∈ ints, minInt ≤ i ∧ i ≤ maxInt) :
    json.Unmarshal (valuesBody ints) .new = (⟨ints, []⟩, none) := by
  have hm : matchesValues "values" = true := by decide
  cases ints with
  | nil => simp only [json.Unmarshal, valuesBody, decodeMembers, hm, if_true, List.map_nil,
      decodeValues]
  | cons i rest =>
    have := decodeArray_ints (i :: rest) (RandomResponse.new.Values ++ RandomResponse.new.spare) h
    simp only [List.map_cons] at this
    simp only [json.Unmarshal, valuesBody, decodeMembers, hm, if_true, List.map_cons,
      decodeValues, this]
    rfl

theorem next_of_body (s : RandomService) (min max num : Int) (body : Body)
    (hget : (s.Client.Get (s.BaseUrl ++ "/next?min=" ++ fmtD min ++ "&max=" ++ fmtD max
      ++ "&num=" ++ fmtD num)).2 = .ok body) :
    (s.next min max num).2 =
      match (json.Unmarshal body .new).2 with
      | some err => .error err
      | none => .ok (json.Unmarshal body .new).1.Values := by
  unfold RandomService.next
  simp only [hget]
  rcases json.Unmarshal body .new with ⟨rand, err⟩
  cases err <;> rfl

theorem next_of_error (s : RandomService) (min max num : Int) (err : GoError)
    (hget : (s.Client.Get (s.BaseUrl ++ "/next?min=" ++ fmtD min ++ "&max=" ++ fmtD max
      ++ "&num=" ++ fmtD num)).2 = .error err) :
    (s.next min max num).2 = .error err := by
  unfold RandomService.next
  simp only [hget]

/-! ## Lemmas on the lifecycle -/

theorem mainStep_consistent (s s' : MainState) (e : Event) (hc : s.consistent = true)
    (hs : mainStep s e = some s') : s'.consistent = true := by
  obtain ⟨pc, st⟩ := s
  cases pc <;> cases e <;> simp [mainStep] at hs <;> subst hs <;>
    first
      | rfl
      | (simp only [MainState.consistent] at hc ⊢; exact hc)

theorem run_consistent (evs : List Event) :
    ∀ (s s' : MainState), s.consistent = true → run s evs = some s' → s'.consistent = true := by
  induction evs with
  | nil =>
    intro s s' hc hr
    simp only [run, Option.some.injEq] at hr
    subst hr; exact hc
  | cons e es ih =>
    intro s s' hc hr
    cases hm : mainStep s e with
    | none => simp [run, hm] at hr
    | some s1 =>
      simp only [run, hm, Option.some_bind] at hr
      exact ih s1 s' (mainStep_consistent s s1 e hc hm) hr

theorem mainStep_status (s s' : MainState) (e : Event) (hc : s.consistent = true)
    (hs : mainStep s e = some s') :
    s'.serverStatus = s.serverStatus
      ∨ (s.serverStatus = .Starting ∧ s'.serverStatus = .Running)
      ∨ (s.serverStatus = .Running ∧ s'.serverStatus = .ShuttingDown) := by
  obtain ⟨pc, st⟩ := s
  cases pc <;> cases e <;> simp [mainStep] at hs <;> subst hs <;>
    first
      | exact Or.inl rfl
      | (simp only [MainState.consistent, beq_iff_eq] at hc; subst hc; simp)

theorem mainStep_shuttingDown (s s' : MainState) (e : Event) (hc : s.consistent = true)
    (hd : s.serverStatus = .ShuttingDown) (hs : mainStep s e = some s') :
    s'.serverStatus = .ShuttingDown := by
  rcases mainStep_status s s' e hc hs with h | ⟨h, _⟩ | ⟨h, _⟩
  · rw [h, hd]
  · rw [hd] at h; cases h
  · rw [hd] at h; cases h

theorem run_shuttingDown (evs : List Event) :
    ∀ (s s' : MainState), s.consistent = true → s.serverStatus = .ShuttingDown →
      run s evs = some s' → s'.serverStatus = .ShuttingDown := by
  induction evs with
  | nil =>
    intro s s' _ hd hr
    simp only [run, Option.some.injEq] at hr
    subst hr; exact hd
  | cons e es ih =>
    intro s s' hc hd hr
    cases hm : mainStep s e with
    | none => simp [run, hm] at hr
    | some s1 =>
      simp only [run, hm, Option.some_bind] at hr
      exact ih s1 s' (mainStep_consistent s s1 e hc hm) (mainStep_shuttingDown s s1 e hc hd hm) hr

theorem httpCheck_eq (health : HealthHandler) (s : ServerStatus) :
    ((initHealthcheck health).readinessCheck "http").map (fun check => check s)
      = some (if s = .Running then none else some ("HTTP server is " ++ s.String)) := by
  simp [initHealthcheck, HealthHandler.AddReadinessCheck, HealthHandler.readinessCheck]

/-! ## Lemmas on the URL that the client requests -/

theorem cut_of_not_mem (sep : Char) (l : List Char) (h : sep ∉ l) : cut sep l = (l, none) := by
  induction l with
  | nil => rfl
  | cons c cs ih =>
    have hc : c ≠ sep := fun e => h (by rw [e]; exact List.mem_cons_self _ _)
    have hcs : sep ∉ cs := fun e => h (List.mem_cons_of_mem _ e)
    simp only [cut, if_neg hc, ih hcs]

theorem cut_append (sep : Char) (a b : List Char) (h : sep ∉ a) :
    cut sep (a ++ sep :: b) = (a, some b) := by
  induction a with
  | nil => simp [cut]
  | cons c cs ih =>
    have hc : c ≠ sep := fun e => h (by rw [e]; exact List.mem_cons_self _ _)
    have hcs : sep ∉ cs := fun e => h (List.mem_cons_of_mem _ e)
    rw [List.cons_append, cut, if_neg hc, ih hcs]

theorem cutLast_of_not_mem (sep : Char) (l : List Char) (h : sep ∉ l) : cutLast sep l = none := by
  induction l with
  | nil => rfl
  | cons c cs ih =>
    have hc : c ≠ sep := fun e => h (by rw [e]; exact List.mem_cons_self _ _)
    have hcs : sep ∉ cs := fun e => h (List.mem_cons_of_mem _ e)
    simp only [cutLast, ih hcs, if_neg hc]

theorem isAlnum_lt (n : Nat) (h : isAlnum n = true) : 48 ≤ n ∧ n ≤ 122 := by
  have ha : 'a'.toNat = 97 := rfl
  have hz : 'z'.toNat = 122 := rfl
  have hA : 'A'.toNat = 65 := rfl
  have hZ : 'Z'.toNat = 90 := rfl
  have h0 : '0'.toNat = 48 := rfl
  have h9 : '9'.toNat = 57 := rfl
  simp only [isAlnum, ha, hz, hA, hZ, h0, h9, Bool.or_eq_true, Bool.and_eq_true,
    decide_eq_true_eq] at h
  omega

theorem isUnreserved_cases (c : Char) (h : isUnreserved c = true) :
    isAlnum c.toNat = true ∨ c = '-' ∨ c = '.' ∨ c = '_' ∨ c = '~' := by
  simp only [isUnreserved, Bool.or_eq_true, beq_iff_eq] at h
  tauto

theorem isUnreserved_lt (c : Char) (h : isUnreserved c = true) :
    0x20 ≤ c.toNat ∧ c.toNat < 0x7f := by
  rcases isUnreserved_cases c h with h | rfl | rfl | rfl | rfl
  · have := isAlnum_lt _ h
    omega
  · decide
  · decide
  · decide
  · decide

theorem isUnreserved_ne (c x : Char) (h : isUnreserved c = true) (hx : isUnreserved x = false) :
    c ≠ x := by
  intro e
  rw [e, hx] at h
  cases h

theorem shouldEscape_unreserved (c : Char) (mode : Encoding) (h : isUnreserved c = true) :
    shouldEscape c.toNat mode = false := by
  rcases isUnreserved_cases c h with h | rfl | rfl | rfl | rfl
  · simp [shouldEscape, h]
  · cases mode <;> decide
  · cases mode <;> decide
  · cases mode <;> decide
  · cases mode <;> decide

theorem unescape_plain (mode : Encoding) (l : List Char)
    (h : ∀ c ∈ l, c ≠ '%' ∧ c ≠ '+' ∧ c.toNat < 0x80
      ∧ ((mode = .encodeHost ∨ mode = .encodeZone) → shouldEscape c.toNat .encodeHost = false)) :
    unescape l mode = .ok (l.map Char.toNat) := by
  induction l with
  | nil => rfl
  | cons c cs ih =>
    obtain ⟨h1, h2, h3, h4⟩ := h c (List.mem_cons_self _ _)
    have ih2 := ih (fun d hd => h d (List.mem_cons_of_mem _ hd))
    have h5 : ¬ ((mode = .encodeHost ∨ mode = .encodeZone) ∧ c.toNat < 0x80
        ∧ shouldEscape c.toNat .encodeHost = true) := by
      rintro ⟨hm, _, hs⟩
      rw [h4 hm] at hs
      cases hs
    have h6 : ¬ (c = '+' ∧ mode = .encodeQueryComponent) := fun e => h2 e.1
    have h7 : utf8Bytes c = [c.toNat] := by simp [utf8Bytes, h3]
    cases cs with
    | nil =>
      rw [unescape, if_neg h1, if_neg h5, if_neg h6, ih2, h7]
      · rfl
      · intro a b r e; cases e
    | cons a as =>
      cases as with
      | nil =>
        rw [unescape, if_neg h1, if_neg h5, if_neg h6, ih2, h7]
        · rfl
        · intro a2 b r e; cases e
      | cons b rest2 =>
        rw [unescape, if_neg h1, if_neg h5, if_neg h6, ih2, h7]
        rfl

theorem escape_plain (mode : Encoding) (l : List Char)
    (h : ∀ c ∈ l, shouldEscape c.toNat mode = false) :
    escape (l.map Char.toNat) mode = l := by
  induction l with
  | nil => rfl
  | cons c cs ih =>
    have h1 := h c (List.mem_cons_self _ _)
    have ih2 := ih (fun d hd => h d (List.mem_cons_of_mem _ hd))
    have hof : Char.ofNat c.toNat = c := Char.ofNat_toNat c
    unfold escape at ih2 ⊢
    rw [List.map_cons, List.flatMap_cons, ih2]
    simp [h1, hof]

theorem getSchemeLoop_letters (raw sch rest seen : List Char)
    (hs : ∀ c ∈ sch, 'a' ≤ c ∧ c ≤ 'z') (hne : seen ++ sch ≠ []) :
    getSchemeLoop raw (sch ++ ':' :: rest) seen = .ok (seen ++ sch, rest) := by
  induction sch generalizing seen with
  | nil =>
    have hseen : seen ≠ [] := by simpa using hne
    simp [getSchemeLoop, hseen]
  | cons c cs ih =>
    have hc := hs c (List.mem_cons_self _ _)
    have := ih (seen ++ [c]) (fun d hd => hs d (List.mem_cons_of_mem _ hd)) (by simp)
    rw [List.cons_append, getSchemeLoop, if_pos (Or.inl hc), this]
    simp

theorem toLower_lower (sch : List Char) (hs : ∀ c ∈ sch, 'a' ≤ c ∧ c ≤ 'z') :
    toLower sch = sch := by
  induction sch with
  | nil => rfl
  | cons c cs ih =>
    have hc := hs c (List.mem_cons_self _ _)
    have ih2 := ih (fun d hd => hs d (List.mem_cons_of_mem _ hd))
    have hnot : ¬ ('A' ≤ c ∧ c ≤ 'Z') := by
      rintro ⟨_, h2⟩
      have h1 := hc.1
      simp only [Char.le_def] at h1 h2
      have ha : ('a' : Char).val = 97 := rfl
      have hZ : ('Z' : Char).val = 90 := rfl
      rw [ha] at h1
      rw [hZ] at h2
      have := UInt32.le_trans h1 h2
      exact absurd this (by decide)
    simp only [toLower, List.map_cons, if_neg hnot]
    simp only [toLower] at ih2
    rw [ih2]

theorem getLast?_append_cons (a : List Char) (x : Char) (q : List Char) (hq0 : q ≠ []) :
    (a ++ x :: q).getLast? = q.getLast? := by
  rw [show a ++ x :: q = (a ++ [x]) ++ q by simp]
  rw [List.getLast?_append]
  cases hq : q.getLast? with
  | none => simp [List.getLast?_eq_none_iff] at hq; exact absurd hq hq0
  | some y => rfl

theorem getLast?_append_cons_nat (a : List Nat) (x : Nat) (q : List Nat) (hq0 : q ≠ []) :
    (a ++ x :: q).getLast? = q.getLast? := by
  rw [show a ++ x :: q = (a ++ [x]) ++ q by simp]
  rw [List.getLast?_append]
  cases hq : q.getLast? with
  | none => simp [List.getLast?_eq_none_iff] at hq; exact absurd hq hq0
  | some y => rfl

theorem getLast?_ne_of_not_mem (q : List Char) (x : Char) (h : x ∉ q) :
    q.getLast? ≠ some x := by
  intro e
  exact h (List.mem_of_getLast?_eq_some e)

theorem isUnreserved_toNat_ne_colon (c : Char) (h : isUnreserved c = true) : c.toNat ≠ 58 := by
  rcases isUnreserved_cases c h with h | rfl | rfl | rfl | rfl
  · intro e
    rw [e] at h
    revert h
    decide
  · decide
  · decide
  · decide
  · decide

theorem cutLast_append (sep : Char) (a b : List Char) (h : sep ∉ b) :
    cutLast sep (a ++ sep :: b) = some (a, sep :: b) := by
  induction a with
  | nil => simp only [List.nil_append, cutLast, cutLast_of_not_mem sep b h, if_true]
  | cons c cs ih => rw [List.cons_append, cutLast, ih]

theorem authChar_ne (c x : Char) (h : isUnreserved c = true ∨ c = ':')
    (hx : isUnreserved x = false) (hx2 : x ≠ ':') : c ≠ x := by
  rcases h with h | rfl
  · exact isUnreserved_ne c x h hx
  · exact fun e => hx2 e.symm

theorem authChar_lt (c : Char) (h : isUnreserved c = true ∨ c = ':') :
    0x20 ≤ c.toNat ∧ c.toNat < 0x7f := by
  rcases h with h | rfl
  · exact isUnreserved_lt c h
  · decide

theorem shouldEscape_authChar (c : Char) (h : isUnreserved c = true ∨ c = ':') :
    shouldEscape c.toNat .encodeHost = false := by
  rcases h with h | rfl
  · exact shouldEscape_unreserved c _ h
  · decide

theorem unescape_authority (h : List Char) (hA : ∀ c ∈ h, isUnreserved c = true ∨ c = ':') :
    unescape h .encodeHost = .ok (h.map Char.toNat) := by
  apply unescape_plain
  intro c hc
  refine ⟨authChar_ne c '%' (hA c hc) (by decide) (by decide),
    authChar_ne c '+' (hA c hc) (by decide) (by decide), ?_,
    fun _ => shouldEscape_authChar c (hA c hc)⟩
  have := authChar_lt c (hA c hc)
  omega

theorem digit_unreserved (c : Char) (h : ('0' ≤ c && c ≤ '9') = true) : isUnreserved c = true := by
  simp only [Bool.and_eq_true, decide_eq_true_eq, Char.le_def, UInt32.le_def, BitVec.le_def] at h
  have h0 : ('0' : Char).val.toBitVec.toNat = 48 := rfl
  have h9 : ('9' : Char).val.toBitVec.toNat = 57 := rfl
  have hn : c.toNat = c.val.toBitVec.toNat := rfl
  rw [h0, h9, ← hn] at h
  have z0 : '0'.toNat = 48 := rfl
  have z9 : '9'.toNat = 57 := rfl
  simp only [isUnreserved, isAlnum, z0, z9, Bool.or_eq_true, Bool.and_eq_true, decide_eq_true_eq]
  left; left; left; left; right
  exact h

/-- A host of unreserved characters followed by a port, `host ++ port`, as `parseHost` and
`removeEmptyPort` treat it. -/
theorem hostport_props (host port : List Char) (hhost : host.all isUnreserved = true)
    (hport : isPort port = true) :
    (∀ c ∈ host ++ port, isUnreserved c = true ∨ c = ':')
      ∧ parseHost (host ++ port) = .ok ((host ++ port).map Char.toNat)
      ∧ ((host ++ port).map Char.toNat).getLast? ≠ some 58 := by
  have hh : ∀ c ∈ host, isUnreserved c = true := by
    simpa [List.all_eq_true] using hhost
  have hcolon : ':' ∉ host := fun hm => isUnreserved_ne ':' ':' (hh ':' hm) (by decide) rfl
  have hbr : '[' ∉ host := fun hm => isUnreserved_ne '[' '[' (hh '[' hm) (by decide) rfl
  cases port with
  | nil =>
    have hA : ∀ c ∈ host ++ [], isUnreserved c = true ∨ c = ':' := by
      intro c hc
      rw [List.append_nil] at hc
      exact Or.inl (hh c hc)
    refine ⟨hA, ?_, ?_⟩
    · have h1 : (host ++ []).head? ≠ some '[' := by
        rw [List.append_nil]
        exact fun e => hbr (List.mem_of_mem_head? e)
      have h2 : cutLast ':' (host ++ []) = none := by
        rw [List.append_nil]
        exact cutLast_of_not_mem ':' host hcolon
      simp only [parseHost, h1, if_false, h2, unescape_authority _ hA]
    · intro e
      have hm := List.mem_of_getLast?_eq_some e
      rw [List.mem_map] at hm
      obtain ⟨c, hc, hce⟩ := hm
      rw [List.append_nil] at hc
      exact isUnreserved_toNat_ne_colon c (hh c hc) hce
  | cons p ds =>
    simp only [isPort, Bool.and_eq_true] at hport
    obtain ⟨⟨hp, hds0⟩, hds⟩ := hport
    rw [List.all_eq_true] at hds
    have hp : p = ':' := by simpa using hp
    subst hp
    have hds0 : ds ≠ [] := by
      intro e
      rw [e] at hds0
      cases hds0
    have hdu : ∀ c ∈ ds, isUnreserved c = true := fun c hc => digit_unreserved c (hds c hc)
    have hcds : ':' ∉ ds := fun hm => isUnreserved_ne ':' ':' (hdu ':' hm) (by decide) rfl
    have hA : ∀ c ∈ host ++ ':' :: ds, isUnreserved c = true ∨ c = ':' := by
      intro c hc
      simp only [List.mem_append, List.mem_cons] at hc
      rcases hc with hc | rfl | hc
      · exact Or.inl (hh c hc)
      · exact Or.inr rfl
      · exact Or.inl (hdu c hc)
    refine ⟨hA, ?_, ?_⟩
    · have h1 : (host ++ ':' :: ds).head? ≠ some '[' := by
        intro e
        have hm := List.mem_of_mem_head? e
        exact authChar_ne '[' '[' (hA '[' hm) (by decide) (by decide) rfl
      have h2 : cutLast ':' (host ++ ':' :: ds) = some (host, ':' :: ds) :=
        cutLast_append ':' host ds hcds
      have h3 : validOptionalPort (':' :: ds) = true := by
        simp only [validOptionalPort, beq_self_eq_true, Bool.true_and]
        rw [List.all_eq_true]
        exact hds
      simp only [parseHost, h1, if_false, h2, h3, Bool.not_true, Bool.false_eq_true,
        unescape_authority _ hA]
    · intro e
      rw [List.map_append, List.map_cons, getLast?_append_cons_nat] at e
      · have hm := List.mem_of_getLast?_eq_some e
        rw [List.mem_map] at hm
        obtain ⟨c, hc, hce⟩ := hm
        exact isUnreserved_toNat_ne_colon c (hdu c hc) hce
      · simpa using hds0

theorem parseAuthority_plain (h : List Char) (hA : ∀ c ∈ h, isUnreserved c = true ∨ c = ':')
    (hP : parseHost h = .ok (h.map Char.toNat)) :
    parseAuthority h = .ok (none, h.map Char.toNat) := by
  have hne : '@' ∉ h := fun hm => authChar_ne '@' '@' (hA '@' hm) (by decide) (by decide) rfl
  simp only [parseAuthority, cutLast_of_not_mem '@' h hne, hP]
  rfl

theorem shouldEscape_path (c : Char) (h : isUnreserved c = true ∨ c = '/') :
    shouldEscape c.toNat .encodePath = false := by
  rcases h with h | rfl
  · exact shouldEscape_unreserved c _ h
  · decide

theorem setPath_plain (u : URL) (p : List Char)
    (hp : ∀ c ∈ p, isUnreserved c = true ∨ c = '/') :
    u.setPath p = .ok { u with Path := p.map Char.toNat, RawPath := [] } := by
  have h1 : unescape p .encodePath = .ok (p.map Char.toNat) := by
    apply unescape_plain
    intro c hc
    rcases hp c hc with h | rfl
    · refine ⟨isUnreserved_ne c '%' h (by decide), isUnreserved_ne c '+' h (by decide), ?_,
        fun hm => by rcases hm with hm | hm <;> cases hm⟩
      have := isUnreserved_lt c h
      omega
    · exact ⟨by decide, by decide, by decide, fun hm => by rcases hm with hm | hm <;> cases hm⟩
  have h2 : escape (p.map Char.toNat) .encodePath = p :=
    escape_plain _ p (fun c hc => shouldEscape_path c (hp c hc))
  simp only [URL.setPath, h1, bind, Except.bind, h2, if_true]
  rfl

theorem letter_props (c : Char) (hc : 'a' ≤ c ∧ c ≤ 'z') :
    c ≠ '#' ∧ c ≠ '?' ∧ isCTL c = false := by
  have h1 := hc.1
  have h2 := hc.2
  simp only [Char.le_def, UInt32.le_def, BitVec.le_def] at h1 h2
  have ha : ('a' : Char).val.toBitVec.toNat = 97 := rfl
  have hz : ('z' : Char).val.toBitVec.toNat = 122 := rfl
  rw [ha] at h1
  rw [hz] at h2
  have hn : c.toNat = c.val.toBitVec.toNat := rfl
  refine ⟨?_, ?_, ?_⟩
  · intro e; subst e; revert h1; decide
  · intro e; subst e; revert h1; decide
  · simp only [isCTL, Bool.or_eq_false_iff, decide_eq_false_iff_not, hn]
    omega

theorem unreserved_props (c : Char) (hc : isUnreserved c = true ∨ c = '/') :
    c ≠ '#' ∧ c ≠ '?' ∧ isCTL c = false := by
  rcases hc with h | rfl
  · refine ⟨isUnreserved_ne c '#' h (by decide), isUnreserved_ne c '?' h (by decide), ?_⟩
    have := isUnreserved_lt c h
    simp only [isCTL, Bool.or_eq_false_iff, decide_eq_false_iff_not]
    omega
  · decide

theorem authChar_props (c : Char) (h : isUnreserved c = true ∨ c = ':') :
    c ≠ '#' ∧ c ≠ '?' ∧ c ≠ '/' ∧ isCTL c = false := by
  refine ⟨authChar_ne c '#' h (by decide) (by decide), authChar_ne c '?' h (by decide) (by decide),
    authChar_ne c '/' h (by decide) (by decide), ?_⟩
  have := authChar_lt c h
  simp only [isCTL, Bool.or_eq_false_iff, decide_eq_false_iff_not]
  omega

/-- The characters of a URL made of a scheme of small letters, a host with its port, a path of
unreserved characters and slashes, and a query. -/
theorem plainURL_props (sch h p q : List Char)
    (hs : ∀ c ∈ sch, 'a' ≤ c ∧ c ≤ 'z')
    (hA : ∀ c ∈ h, isUnreserved c = true ∨ c = ':')
    (hp : ∀ c ∈ p, isUnreserved c = true ∨ c = '/')
    (hq : ∀ c ∈ q, c ≠ '#' ∧ c ≠ '?' ∧ isCTL c = false) :
    ∀ c ∈ sch ++ ':' :: '/' :: '/' :: (h ++ '/' :: (p ++ '?' :: q)),
      c ≠ '#' ∧ isCTL c = false := by
  intro c hc
  simp only [List.mem_append, List.mem_cons] at hc
  rcases hc with hc | rfl | rfl | rfl | hc | rfl | hc | rfl | hc
  · exact ⟨(letter_props c (hs c hc)).1, (letter_props c (hs c hc)).2.2⟩
  · decide
  · decide
  · decide
  · exact ⟨(authChar_props c (hA c hc)).1, (authChar_props c (hA c hc)).2.2.2⟩
  · decide
  · exact ⟨(unreserved_props c (hp c hc)).1, (unreserved_props c (hp c hc)).2.2⟩
  · decide
  · exact ⟨(hq c hc).1, (hq c hc).2.2⟩

theorem parse_plain (sch h p q : List Char)
    (hs : ∀ c ∈ sch, 'a' ≤ c ∧ c ≤ 'z') (hs0 : sch ≠ [])
    (hA : ∀ c ∈ h, isUnreserved c = true ∨ c = ':')
    (hP : parseHost h = .ok (h.map Char.toNat))
    (hp : ∀ c ∈ p, isUnreserved c = true ∨ c = '/')
    (hq : ∀ c ∈ q, c ≠ '#' ∧ c ≠ '?' ∧ isCTL c = false) (hq0 : q ≠ []) :
    url.parse (sch ++ ':' :: '/' :: '/' :: (h ++ '/' :: (p ++ '?' :: q)))
      = .ok { Scheme := sch, Host := h.map Char.toNat, Path := ('/' :: p).map Char.toNat,
              RawQuery := q } := by
  have hprops := plainURL_props sch h p q hs hA hp hq
  have hctl : (sch ++ ':' :: '/' :: '/' :: (h ++ '/' :: (p ++ '?' :: q))).any isCTL = false := by
    rw [List.any_eq_false]
    intro c hc
    simp [(hprops c hc).2]
  have hstar : sch ++ ':' :: '/' :: '/' :: (h ++ '/' :: (p ++ '?' :: q)) ≠ ['*'] := by
    intro e
    have := congrArg List.length e
    simp at this
    omega
  have hsch : getScheme (sch ++ ':' :: '/' :: '/' :: (h ++ '/' :: (p ++ '?' :: q)))
      = .ok (sch, '/' :: '/' :: (h ++ '/' :: (p ++ '?' :: q))) := by
    have := getSchemeLoop_letters (sch ++ ':' :: '/' :: '/' :: (h ++ '/' :: (p ++ '?' :: q)))
      sch ('/' :: '/' :: (h ++ '/' :: (p ++ '?' :: q))) [] hs (by simpa using hs0)
    simpa [getScheme] using this
  have hlow : toLower sch = sch := toLower_lower sch hs
  have hq1 : '?' ∉ q := fun hm => (hq '?' hm).2.1 rfl
  have hlast : ('/' :: '/' :: (h ++ '/' :: (p ++ '?' :: q))).getLast? ≠ some '?' := by
    have e : '/' :: '/' :: (h ++ '/' :: (p ++ '?' :: q))
        = ('/' :: '/' :: (h ++ '/' :: p)) ++ '?' :: q := by simp
    rw [e, getLast?_append_cons _ _ _ hq0]
    exact getLast?_ne_of_not_mem q '?' hq1
  have hcutq : cut '?' ('/' :: '/' :: (h ++ '/' :: (p ++ '?' :: q)))
      = ('/' :: '/' :: (h ++ '/' :: p), some q) := by
    have e : '/' :: '/' :: (h ++ '/' :: (p ++ '?' :: q))
        = ('/' :: '/' :: (h ++ '/' :: p)) ++ '?' :: q := by simp
    rw [e]
    apply cut_append
    intro hm
    simp only [List.mem_cons, List.mem_append] at hm
    rcases hm with hm | hm | hm | hm | hm
    · cases hm
    · cases hm
    · exact (authChar_props '?' (hA '?' hm)).2.1 rfl
    · cases hm
    · exact (unreserved_props '?' (hp '?' hm)).2.1 rfl
  have hcuth : cut '/' (h ++ '/' :: p) = (h, some p) := by
    apply cut_append
    intro hm
    exact (authChar_props '/' (hA '/' hm)).2.2.1 rfl
  have hauth := parseAuthority_plain h hA hP
  have hpath : ∀ u : URL, u.setPath ('/' :: p)
      = .ok { u with Path := ('/' :: p).map Char.toNat, RawPath := [] } := by
    intro u
    apply setPath_plain
    intro c hc
    simp only [List.mem_cons] at hc
    rcases hc with rfl | hc
    · exact Or.inr rfl
    · exact hp c hc
  unfold url.parse
  rw [hctl]
  simp only [Bool.false_eq_true, if_false, if_neg hstar, hsch, hlow]
  have hcond : ¬ (('/' :: '/' :: (h ++ '/' :: (p ++ '?' :: q))).getLast? = some '?'
      ∧ ('/' :: '/' :: (h ++ '/' :: (p ++ '?' :: q))).count '?' = 1) := fun e => hlast e.1
  simp only [if_neg hcond, hcutq, Option.getD_some]
  simp [hs0, hcuth, hauth, hpath]

theorem removeEmptyPort_plain (h : List Char)
    (hL : (h.map Char.toNat).getLast? ≠ some 58) :
    removeEmptyPort (h.map Char.toNat) = h.map Char.toNat := by
  have : (h.map Char.toNat).getLast? ≠ some ':'.toNat := hL
  simp only [removeEmptyPort, if_neg this]

theorem string_plain (sch h p q : List Char) (hs0 : sch ≠ [])
    (hA : ∀ c ∈ h, isUnreserved c = true ∨ c = ':')
    (hp : ∀ c ∈ p, isUnreserved c = true ∨ c = '/') (hq0 : q ≠ []) :
    URL.String { Scheme := sch, Host := h.map Char.toNat, Path := ('/' :: p).map Char.toNat,
                 RawQuery := q }
      = sch ++ ':' :: '/' :: '/' :: (h ++ '/' :: (p ++ '?' :: q)) := by
  have hhost : escape (h.map Char.toNat) .encodeHost = h :=
    escape_plain _ h (fun c hc => shouldEscape_authChar c (hA c hc))
  have hpath : escape (('/' :: p).map Char.toNat) .encodePath = '/' :: p := by
    apply escape_plain
    intro c hc
    simp only [List.mem_cons] at hc
    rcases hc with rfl | hc
    · decide
    · exact shouldEscape_path c (hp c hc)
  have hstar : ('/' :: p).map Char.toNat ≠ ['*'.toNat] := by
    intro e
    simp only [List.map_cons, List.cons.injEq] at e
    exact absurd e.1 (by decide)
  have hesc : URL.EscapedPath
      { Scheme := sch, Host := h.map Char.toNat, Path := ('/' :: p).map Char.toNat,
        RawQuery := q } = '/' :: p := by
    simp only [URL.EscapedPath, ne_eq, not_true_eq_false, false_and, if_false, if_neg hstar,
      hpath]
  simp only [URL.String, hesc, hhost]
  simp [hs0, hq0]

theorem Parse_plain (sch h p q : List Char)
    (hs : ∀ c ∈ sch, 'a' ≤ c ∧ c ≤ 'z') (hs0 : sch ≠ [])
    (hA : ∀ c ∈ h, isUnreserved c = true ∨ c = ':')
    (hP : parseHost h = .ok (h.map Char.toNat))
    (hp : ∀ c ∈ p, isUnreserved c = true ∨ c = '/')
    (hq : ∀ c ∈ q, c ≠ '#' ∧ c ≠ '?' ∧ isCTL c = false) (hq0 : q ≠ []) :
    url.Parse (sch ++ ':' :: '/' :: '/' :: (h ++ '/' :: (p ++ '?' :: q)))
      = .ok { Scheme := sch, Host := h.map Char.toNat, Path := ('/' :: p).map Char.toNat,
              RawQuery := q } := by
  have hno : '#' ∉ sch ++ ':' :: '/' :: '/' :: (h ++ '/' :: (p ++ '?' :: q)) :=
    fun hm => (plainURL_props sch h p q hs hA hp hq '#' hm).1 rfl
  simp only [url.Parse, cut_of_not_mem '#' _ hno, parse_plain sch h p q hs hs0 hA hP hp hq hq0]

/-- The client hands a plain URL to its transport as it is. -/
theorem get_plain (c : Client) (sch h p q : List Char)
    (hs : ∀ c ∈ sch, 'a' ≤ c ∧ c ≤ 'z') (hs0 : sch ≠ [])
    (hA : ∀ c ∈ h, isUnreserved c = true ∨ c = ':')
    (hP : parseHost h = .ok (h.map Char.toNat))
    (hL : (h.map Char.toNat).getLast? ≠ some 58)
    (hp : ∀ c ∈ p, isUnreserved c = true ∨ c = '/')
    (hq : ∀ c ∈ q, c ≠ '#' ∧ c ≠ '?' ∧ isCTL c = false) (hq0 : q ≠ []) :
    c.Get (String.mk (sch ++ ':' :: '/' :: '/' :: (h ++ '/' :: (p ++ '?' :: q))))
      = ([String.mk (sch ++ ':' :: '/' :: '/' :: (h ++ '/' :: (p ++ '?' :: q)))],
          c.Transport (String.mk (sch ++ ':' :: '/' :: '/' :: (h ++ '/' :: (p ++ '?' :: q))))) := by
  simp only [Client.Get, Parse_plain sch h p q hs hs0 hA hP hp hq hq0,
    removeEmptyPort_plain h hL, string_plain sch h p q hs0 hA hp hq0]

/-- A plain path followed by `/next` starts with a slash. -/
theorem path_next (path : List Char) (hpath : isPlainPath path = true) :
    ∃ p, path ++ ['/', 'n', 'e', 'x', 't'] = '/' :: p
      ∧ (∀ c ∈ p, isUnreserved c = true ∨ c = '/') := by
  simp only [isPlainPath, Bool.and_eq_true, Bool.or_eq_true, List.all_eq_true, beq_iff_eq]
    at hpath
  obtain ⟨h0, hall⟩ := hpath
  cases path with
  | nil =>
    refine ⟨['n', 'e', 'x', 't'], rfl, ?_⟩
    decide
  | cons c cs =>
    have hc : c = '/' := by
      rcases h0 with h0 | h0
      · simp at h0
      · simpa using h0
    subst hc
    refine ⟨cs ++ ['/', 'n', 'e', 'x', 't'], rfl, ?_⟩
    intro d hd
    simp only [List.mem_append] at hd
    rcases hd with hd | hd
    · exact hall d (List.mem_cons_of_mem _ hd)
    · revert d
      decide

theorem fmtInteger_mem (v : Int) (base : Nat) (zero : Bool) (wid : Option Nat) :
    ∀ c ∈ fmtInteger v base zero wid,
      c = ' ' ∨ c = '-' ∨ c = '0' ∨ ∃ n, c = Nat.digitChar n := by
  intro c hc
  have hd : ∀ d ∈ fmtDigits base v.natAbs v.natAbs [], ∃ n, d = Nat.digitChar n := by
    intro d hd
    rcases fmtDigits_mem base _ _ _ d hd with h | h
    · simp at h
    · exact h
  simp only [fmtInteger, List.mem_append, List.mem_replicate] at hc
  rcases hc with ⟨_, rfl⟩ | hc
  · exact Or.inl rfl
  · split_ifs at hc
    · simp only [List.mem_cons, List.mem_append, List.mem_replicate] at hc
      rcases hc with rfl | ⟨_, rfl⟩ | hc
      · exact Or.inr (Or.inl rfl)
      · exact Or.inr (Or.inr (Or.inl rfl))
      · exact Or.inr (Or.inr (Or.inr (hd c hc)))
    · simp only [List.mem_append, List.mem_replicate] at hc
      rcases hc with ⟨_, rfl⟩ | hc
      · exact Or.inr (Or.inr (Or.inl rfl))
      · exact Or.inr (Or.inr (Or.inr (hd c hc)))

theorem digitChar_query (n : Nat) :
    Nat.digitChar n ≠ '#' ∧ Nat.digitChar n ≠ '?' ∧ isCTL (Nat.digitChar n) = false := by
  by_cases h : n < 16
  · interval_cases n <;> decide
  · rw [digitChar_of_ge n (by omega)]; decide

theorem fmtD_query (v : Int) :
    ∀ c ∈ (fmtD v).data, c ≠ '#' ∧ c ≠ '?' ∧ isCTL c = false := by
  intro c hc
  rcases fmtInteger_mem v 10 false none c hc with rfl | rfl | rfl | ⟨n, rfl⟩
  · decide
  · decide
  · decide
  · exact digitChar_query n

theorem get_base (c : Client) (b host port path : String)
    (hb : b = "http://" ++ host ++ port ++ path ∨ b = "https://" ++ host ++ port ++ path)
    (hhost : host.data.all isUnreserved = true) (hport : isPort port.data = true)
    (hpath : isPlainPath path.data = true)
    (q : List Char) (hq : ∀ c ∈ q, c ≠ '#' ∧ c ≠ '?' ∧ isCTL c = false) (hq0 : q ≠ []) :
    c.Get (b ++ String.mk ('/' :: 'n' :: 'e' :: 'x' :: 't' :: '?' :: q))
      = ([b ++ String.mk ('/' :: 'n' :: 'e' :: 'x' :: 't' :: '?' :: q)],
          c.Transport (b ++ String.mk ('/' :: 'n' :: 'e' :: 'x' :: 't' :: '?' :: q))) := by
  obtain ⟨hA, hP, hL⟩ := hostport_props host.data port.data hhost hport
  obtain ⟨p, e, hp⟩ := path_next path.data hpath
  have key : ∀ sch : List Char, (∀ c ∈ sch, 'a' ≤ c ∧ c ≤ 'z') → sch ≠ [] →
      b = String.mk (sch ++ [':', '/', '/']) ++ host ++ port ++ path →
      c.Get (b ++ String.mk ('/' :: 'n' :: 'e' :: 'x' :: 't' :: '?' :: q))
        = ([b ++ String.mk ('/' :: 'n' :: 'e' :: 'x' :: 't' :: '?' :: q)],
            c.Transport (b ++ String.mk ('/' :: 'n' :: 'e' :: 'x' :: 't' :: '?' :: q))) := by
    intro sch hs hs0 hbe
    have hstr : b ++ String.mk ('/' :: 'n' :: 'e' :: 'x' :: 't' :: '?' :: q)
        = String.mk (sch ++ ':' :: '/' :: '/'
            :: ((host.data ++ port.data) ++ '/' :: (p ++ '?' :: q))) := by
      apply String.ext
      have e2 : path.data ++ '/' :: 'n' :: 'e' :: 'x' :: 't' :: '?' :: q
          = '/' :: (p ++ '?' :: q) := by
        have : path.data ++ '/' :: 'n' :: 'e' :: 'x' :: 't' :: '?' :: q
            = (path.data ++ ['/', 'n', 'e', 'x', 't']) ++ '?' :: q := by simp
        rw [this, e]
        rfl
      rw [hbe]
      simp only [String.data_append, List.append_assoc, List.cons_append, List.nil_append]
      rw [e2]
    rw [hstr]
    exact get_plain c sch (host.data ++ port.data) p q hs hs0 hA hP hL hp hq hq0
  rcases hb with hb | hb
  · exact key ['h', 't', 't', 'p'] (by decide) (by decide) (by rw [hb]; rfl)
  · exact key ['h', 't', 't', 'p', 's'] (by decide) (by decide) (by rw [hb]; rfl)

theorem query_props (min max num : Int) :
    (∀ c ∈ ['m', 'i', 'n', '='] ++ (fmtD min).data ++ ['&', 'm', 'a', 'x', '='] ++ (fmtD max).data
        ++ ['&', 'n', 'u', 'm', '='] ++ (fmtD num).data, c ≠ '#' ∧ c ≠ '?' ∧ isCTL c = false)
      ∧ ['m', 'i', 'n', '='] ++ (fmtD min).data ++ ['&', 'm', 'a', 'x', '='] ++ (fmtD max).data
        ++ ['&', 'n', 'u', 'm', '='] ++ (fmtD num).data ≠ [] := by
  constructor
  · intro c hc
    simp only [List.mem_append] at hc
    rcases hc with ((((hc | hc) | hc) | hc) | hc) | hc
    · revert c; decide
    · exact fmtD_query min c hc
    · revert c; decide
    · exact fmtD_query max c hc
    · revert c; decide
    · exact fmtD_query num c hc
  · simp

theorem next_url_eq (b : String) (min max num : Int) :
    b ++ "/next?min=" ++ fmtD min ++ "&max=" ++ fmtD max ++ "&num=" ++ fmtD num
      = b ++ String.mk ('/' :: 'n' :: 'e' :: 'x' :: 't' :: '?' ::
          (['m', 'i', 'n', '='] ++ (fmtD min).data ++ ['&', 'm', 'a', 'x', '='] ++ (fmtD max).data
            ++ ['&', 'n', 'u', 'm', '='] ++ (fmtD num).data)) := by
  apply String.ext
  simp only [String.data_append, List.append_assoc]
  rfl

theorem get_next_url (c : Client) (b host port path : String)
    (hb : b = "http://" ++ host ++ port ++ path ∨ b = "https://" ++ host ++ port ++ path)
    (hhost : host.data.all isUnreserved = true) (hport : isPort port.data = true)
    (hpath : isPlainPath path.data = true) (min max num : Int) :
    c.Get (b ++ "/next?min=" ++ fmtD min ++ "&max=" ++ fmtD max ++ "&num=" ++ fmtD num)
      = ([b ++ "/next?min=" ++ fmtD min ++ "&max=" ++ fmtD max ++ "&num=" ++ fmtD num],
          c.Transport
            (b ++ "/next?min=" ++ fmtD min ++ "&max=" ++ fmtD max ++ "&num=" ++ fmtD num)) := by
  rw [next_url_eq]
  exact get_base c b host port path hb hhost hport hpath _ (query_props min max num).1
    (query_props min max num).2

/-! ## The claims -/

/-- C1: when the random service returns exactly three integers, each within 0..255, the handler of
`/next` answers with status 200 and the body `{"hex":"#<h>","r":v0,"g":v1,"b":v2}`, where `<h>`
joins the two-digit, zero-padded, lowercase hexadecimal forms of the three values and the
numbers are in decimal. -/
theorem randomColorHandler_bytes (svc : RandomService) (v0 v1 v2 : Int)
    (hnext : (svc.next 0 255 3).2 = .ok [v0, v1, v2])
    (h0 : 0 ≤ v0 ∧ v0 ≤ 255) (h1 : 0 ≤ v1 ∧ v1 ≤ 255) (h2 : 0 ≤ v2 ∧ v2 ≤ 255) :
    (randomColorHandler svc .fresh).2 = .ok
      ⟨[("Content-Type", "application/json")], some 200,
        "\x7b\"hex\":\"#" ++ zeroPad2Hex v0.toNat ++ zeroPad2Hex v1.toNat ++ zeroPad2Hex v2.toNat
          ++ "\",\"r\":" ++ toString v0 ++ ",\"g\":" ++ toString v1 ++ ",\"b\":" ++ toString v2
          ++ "\x7d"⟩ := by
  rw [randomColorHandler_three_body svc v0 v1 v2 hnext,
    Int.emod_eq_of_lt h0.1 (by omega), Int.emod_eq_of_lt h1.1 (by omega),
    Int.emod_eq_of_lt h2.1 (by omega), fmt02x_of_range v0 h0.1 h0.2,
    fmt02x_of_range v1 h1.1 h1.2, fmt02x_of_range v2 h2.1 h2.2]

/-- C1, at the values of `TestRandomColorHandler`: `[255, 0, 50]` gives
`{"hex":"#ff0032","r":255,"g":0,"b":50}` with status 200. -/
theorem randomColorHandler_bytes_witness :
    ((testRandomService (valuesBody [255, 0, 50])).next 0 255 3).2 = .ok [255, 0, 50]
      ∧ (randomColorHandler (testRandomService (valuesBody [255, 0, 50])) .fresh).2 = .ok
          ⟨[("Content-Type", "application/json")], some 200,
            "\x7b\"hex\":\"#ff0032\",\"r\":255,\"g\":0,\"b\":50\x7d"⟩ :=
  ⟨by decide,
    randomColorHandler_bytes (testRandomService (valuesBody [255, 0, 50])) 255 0 50 (by decide)
      (by decide) (by decide) (by decide)⟩

/-- C10: when the random service returns exactly three integers, whatever their values, the
handler of `/next` answers with status 200; it renders `r`, `g`, `b` as the values reduced modulo 256
and `hex` as `#` followed by the `%02x` forms of the values themselves. The `hex` field is `#`
followed by the two-digit hexadecimal forms of the rendered `r`, `g`, `b` exactly when the three
values lie within 0..255. -/
theorem randomColorHandler_any_three (svc : RandomService) (v0 v1 v2 : Int)
    (hnext : (svc.next 0 255 3).2 = .ok [v0, v1, v2]) :
    (randomColorHandler svc .fresh).2 = ColorResponse.render
        { Hex := "#" ++ (fmt02x v0 ++ fmt02x v1 ++ fmt02x v2)
          R := (v0 % 256).toNat
          G := (v1 % 256).toNat
          B := (v2 % 256).toNat } .fresh
      ∧ (randomColorHandler svc .fresh).2 = .ok
          ⟨[("Content-Type", "application/json")], some 200,
            "\x7b\"hex\":\"#" ++ fmt02x v0 ++ fmt02x v1 ++ fmt02x v2 ++ "\",\"r\":"
              ++ toString (v0 % 256) ++ ",\"g\":" ++ toString (v1 % 256) ++ ",\"b\":"
              ++ toString (v2 % 256) ++ "\x7d"⟩
      ∧ ("#" ++ (fmt02x v0 ++ fmt02x v1 ++ fmt02x v2)
            = "#" ++ (zeroPad2Hex (v0 % 256).toNat ++ zeroPad2Hex (v1 % 256).toNat
                ++ zeroPad2Hex (v2 % 256).toNat)
          ↔ (0 ≤ v0 ∧ v0 ≤ 255) ∧ (0 ≤ v1 ∧ v1 ≤ 255) ∧ (0 ≤ v2 ∧ v2 ≤ 255)) :=
  ⟨randomColorHandler_three svc .fresh v0 v1 v2 hnext,
    randomColorHandler_three_body svc v0 v1 v2 hnext, hex_eq_iff v0 v1 v2⟩

/-- C10, at `[256, -1, 7]`: the body is `{"hex":"#100-107","r":0,"g":255,"b":7}`. -/
theorem randomColorHandler_any_three_witness :
    ((testRandomService (valuesBody [256, -1, 7])).next 0 255 3).2 = .ok [256, -1, 7]
      ∧ (randomColorHandler (testRandomService (valuesBody [256, -1, 7])) .fresh).2 = .ok
          ⟨[("Content-Type", "application/json")], some 200,
            "\x7b\"hex\":\"#100-107\",\"r\":0,\"g\":255,\"b\":7\x7d"⟩ :=
  ⟨by decide,
    ((randomColorHandler_any_three (testRandomService (valuesBody [256, -1, 7])) 256 (-1) 7
      (by decide)).2.1).trans (by decide)⟩

/-- C2, evaluated at the downstream body `{"values":[1,2]}`: the handler of `/next` answers with
status 400 and renders no colour, and the message it sends has two blanks between `random` and
`numbers`; it is not the message of the specification, which has one. -/
theorem randomColorHandler_wrong_count_message :
    (randomColorHandler (testRandomService (valuesBody [1, 2])) .fresh).2 = .ok
        ⟨[("X-Content-Type-Options", "nosniff"), ("Content-Type", "text/plain; charset=utf-8")],
          some 400,
          "\x7b\"error\":\"Invalid response from random service: wrong number of random  numbers received.\"\x7d\n"⟩
      ∧ (randomColorHandler (testRandomService (valuesBody [1, 2])) .fresh).2
          ≠ (ErrorResponse.mk
              "Invalid response from random service: wrong number of random numbers received.").render
              .fresh http.StatusBadRequest := by
  decide

/-- C3: when `RandomService.next` returns an error, the handler of `/next` renders an
`ErrorResponse` whose message is the text of that error, with status 400: the body is the object
`{"error": <text>}` written as a line. The answer is no rendering of a colour and its status is
not 200. -/
theorem randomColorHandler_next_error (svc : RandomService) (e : GoError)
    (hnext : (svc.next 0 255 3).2 = .error e) :
    (randomColorHandler svc .fresh).2
        = (ErrorResponse.mk e.Error).render .fresh http.StatusBadRequest
      ∧ (randomColorHandler svc .fresh).2 = .ok
          ⟨[("X-Content-Type-Options", "nosniff"), ("Content-Type", "text/plain; charset=utf-8")],
            some 400, "\x7b\"error\":" ++ jsonString e.Error ++ "\x7d" ++ "\n"⟩
      ∧ (∀ c : ColorResponse, (randomColorHandler svc .fresh).2 ≠ c.render .fresh)
      ∧ (∀ w, (randomColorHandler svc .fresh).2 = .ok w → w.status ≠ some 200) := by
  have h1 := randomColorHandler_error svc .fresh e hnext
  have h2 : (randomColorHandler svc .fresh).2 = .ok
      ⟨[("X-Content-Type-Options", "nosniff"), ("Content-Type", "text/plain; charset=utf-8")],
        some 400, "\x7b\"error\":" ++ jsonString e.Error ++ "\x7d" ++ "\n"⟩ := by
    rw [h1]
    exact renderError_badRequest ⟨e.Error⟩
  refine ⟨h1, h2, ?_, ?_⟩
  · intro c hc
    rw [h2, renderColor_fresh] at hc
    have := congrArg (fun r => r.toOption.map (fun w => w.status)) hc
    simp [Except.toOption] at this
  · intro w hw
    rw [h2] at hw
    cases hw
    show some (400 : Int) ≠ some 200
    decide

/-- C3, at a client that cannot connect. -/
theorem randomColorHandler_next_error_witness :
    ((failingRandomService (.transport "dial tcp: connection refused")).next 0 255 3).2
        = .error (.transport "dial tcp: connection refused")
      ∧ (randomColorHandler (failingRandomService (.transport "dial tcp: connection refused"))
          .fresh).2 = .ok
          ⟨[("X-Content-Type-Options", "nosniff"), ("Content-Type", "text/plain; charset=utf-8")],
            some 400, "\x7b\"error\":\"dial tcp: connection refused\"\x7d\n"⟩ :=
  ⟨by decide,
    ((randomColorHandler_next_error
      (failingRandomService (.transport "dial tcp: connection refused"))
      (.transport "dial tcp: connection refused") (by decide)).2.1).trans (by decide)⟩

/-- C4: `initHealthcheck` registers the readiness check `http`, and on a handler without checks it
is the only one. For each server status the check succeeds exactly when the status is `Running`;
otherwise its error reads `HTTP server is ` followed by the name of the status, `starting` or
`shutting down`. -/
theorem http_readiness_check (health : HealthHandler) (s : ServerStatus) :
    (initHealthcheck .new).readinessChecks.map (fun nc => nc.1) = ["http"]
      ∧ (((initHealthcheck health).readinessCheck "http").map (fun check => check s) = some none
          ↔ s = .Running)
      ∧ (s ≠ .Running →
          ((initHealthcheck health).readinessCheck "http").map (fun check => check s)
            = some (some ("HTTP server is " ++ s.String)))
      ∧ ((initHealthcheck health).readinessCheck "http").map (fun check => check .Starting)
          = some (some "HTTP server is starting")
      ∧ ((initHealthcheck health).readinessCheck "http").map (fun check => check .ShuttingDown)
          = some (some "HTTP server is shutting down") := by
  refine ⟨rfl, ?_, ?_, ?_, ?_⟩
  · rw [httpCheck_eq]
    cases s <;> simp
  · intro hs
    rw [httpCheck_eq, if_neg hs]
  · rw [httpCheck_eq]; rfl
  · rw [httpCheck_eq]; rfl

/-- C5: in every state that `main` reaches from its start, a step leaves `serverStatus` as it is or
takes it from `Starting` to `Running` or from `Running` to `ShuttingDown`; and once the status is
`ShuttingDown`, every state reached later has the status `ShuttingDown` and the readiness check
`http` fails there. -/
theorem lifecycle_transitions (evs : List Event) (s : MainState)
    (hrun : run .init evs = some s) :
    (∀ e s', mainStep s e = some s' →
        s'.serverStatus = s.serverStatus
          ∨ (s.serverStatus = .Starting ∧ s'.serverStatus = .Running)
          ∨ (s.serverStatus = .Running ∧ s'.serverStatus = .ShuttingDown))
      ∧ (s.serverStatus = .ShuttingDown → ∀ evs' s', run s evs' = some s' →
          s'.serverStatus = .ShuttingDown
            ∧ ((initHealthcheck .new).readinessCheck "http").map
                (fun check => check s'.serverStatus)
              = some (some "HTTP server is shutting down")) := by
  have hc : s.consistent = true := run_consistent evs .init s rfl hrun
  refine ⟨fun e s' hs => mainStep_status s s' e hc hs, ?_⟩
  intro hd evs' s' hr
  have h := run_shuttingDown evs' s s' hc hd hr
  refine ⟨h, ?_⟩
  rw [httpCheck_eq, h]
  rfl

/-- C5, at the run that starts, serves, is interrupted and shuts down in time. -/
theorem lifecycle_transitions_witness :
    run .init [.configLoaded, .listenOk, .assign, .interrupt, .assign]
        = some ⟨.draining, .ShuttingDown⟩
      ∧ run ⟨.draining, .ShuttingDown⟩ [.shutdownOk] = some ⟨.exited 0, .ShuttingDown⟩
      ∧ (MainState.mk (.exited 0) .ShuttingDown).serverStatus = .ShuttingDown
      ∧ ((initHealthcheck .new).readinessCheck "http").map
            (fun check => check (MainState.mk (.exited 0) .ShuttingDown).serverStatus)
          = some (some "HTTP server is shutting down") :=
  ⟨by decide, by decide,
    (lifecycle_transitions [.configLoaded, .listenOk, .assign, .interrupt, .assign]
      ⟨.draining, .ShuttingDown⟩ (by decide)).2 rfl [.shutdownOk] ⟨.exited 0, .ShuttingDown⟩
      (by decide)⟩

/-- C6, evaluated at two base URLs. With a blank in the path of the base URL the transport
receives the URL with `%20` in its place, not the URL that `next` formats; with a control character
in the base URL the URL does not parse and no request is made. -/
theorem next_request_escaped :
    ((randomServiceAt "http://localhost/my random" (valuesBody [1, 2, 3])).next
        0 255 3).1 = ["http://localhost/my%20random/next?min=0&max=255&num=3"]
      ∧ "http://localhost/my%20random/next?min=0&max=255&num=3"
          ≠ "http://localhost/my random" ++ "/next?min=" ++ toString (0 : Int) ++ "&max="
              ++ toString (255 : Int) ++ "&num=" ++ toString (3 : Int)
      ∧ ((randomServiceAt "http://local\x7fhost/random" (valuesBody [1, 2, 3])).next
          0 255 3).1 = [] := by
  decide

/-- C6, amended: `RandomService.next` calls `Client.Get` once, with the base URL followed by
`/next?min=`, the decimal form of `min`, `&max=`, that of `max`, `&num=` and that of `num`, and the
requests it makes are those of this call, whatever the base URL: the one URL that `url.Parse` and
`URL.String` make of this text, or none when it does not parse. For a plain base URL, which is
`http://` or `https://`, a host of unreserved characters, a port or none, and a path or none of
unreserved characters and slashes, the transport receives exactly this URL, once, and its answer
is the one `next` goes by; the handler of `/next` requests the base URL followed by
`/next?min=0&max=255&num=3`, which for the base `http://localhost/random` is
`http://localhost/random/next?min=0&max=255&num=3`. -/
theorem next_request_url (b host port path : String) (client : Client) (min max num : Int)
    (w : ResponseWriter)
    (hb : b = "http://" ++ host ++ port ++ path ∨ b = "https://" ++ host ++ port ++ path)
    (hhost : host.data.all isUnreserved = true) (hport : isPort port.data = true)
    (hpath : isPlainPath path.data = true) :
    (∀ base : String, ((RandomService.mk base client).next min max num).1
        = (client.Get (base ++ "/next?min=" ++ toString min ++ "&max=" ++ toString max
            ++ "&num=" ++ toString num)).1)
      ∧ (∀ base : String, ((RandomService.mk base client).next min max num).1
          = match url.Parse (base ++ "/next?min=" ++ toString min ++ "&max=" ++ toString max
              ++ "&num=" ++ toString num).data with
            | .error _ => []
            | .ok u => [String.mk (URL.String { u with Host := removeEmptyPort u.Host })])
      ∧ client.Get (b ++ "/next?min=" ++ toString min ++ "&max=" ++ toString max ++ "&num="
            ++ toString num)
          = ([b ++ "/next?min=" ++ toString min ++ "&max=" ++ toString max ++ "&num="
                ++ toString num],
              client.Transport (b ++ "/next?min=" ++ toString min ++ "&max=" ++ toString max
                ++ "&num=" ++ toString num))
      ∧ ((RandomService.mk b client).next min max num).1
          = [b ++ "/next?min=" ++ toString min ++ "&max=" ++ toString max ++ "&num="
              ++ toString num]
      ∧ (∀ err, client.Transport (b ++ "/next?min=" ++ toString min ++ "&max=" ++ toString max
            ++ "&num=" ++ toString num) = .error err →
          ((RandomService.mk b client).next min max num).2 = .error err)
      ∧ (randomColorHandler ⟨b, client⟩ w).1 = [b ++ "/next?min=0&max=255&num=3"]
      ∧ (randomColorHandler ⟨"http://localhost/random", client⟩ w).1
          = ["http://localhost/random/next?min=0&max=255&num=3"] := by
  have hget := get_next_url client b host port path hb hhost hport hpath
  have hhandler : ∀ (base h1 p1 p2 : String),
      (base = "http://" ++ h1 ++ p1 ++ p2 ∨ base = "https://" ++ h1 ++ p1 ++ p2) →
      h1.data.all isUnreserved = true → isPort p1.data = true → isPlainPath p2.data = true →
      (randomColorHandler ⟨base, client⟩ w).1 = [base ++ "/next?min=0&max=255&num=3"] := by
    intro base h1 p1 p2 hbase hh1 hp1 hp2
    rw [randomColorHandler_requests, next_requests,
      get_next_url client base h1 p1 p2 hbase hh1 hp1 hp2]
    have e0 : fmtD 0 = "0" := by decide
    have e1 : fmtD 255 = "255" := by decide
    have e2 : fmtD 3 = "3" := by decide
    have e3 : "/next?min=0&max=255&num=3"
        = "/next?min=" ++ ("0" ++ ("&max=" ++ ("255" ++ ("&num=" ++ "3")))) := by decide
    simp only [e0, e1, e2, e3, String.append_assoc]
  refine ⟨?_, ?_, ?_, ?_, ?_, hhandler b host port path hb hhost hport hpath, ?_⟩
  · intro base
    rw [next_requests]
    simp only [fmtD_eq_toString]
  · intro base
    rw [next_requests]
    simp only [fmtD_eq_toString, Client.Get]
    split <;> rfl
  · have := hget min max num
    simpa only [fmtD_eq_toString] using this
  · rw [next_requests, hget min max num]
    simp only [fmtD_eq_toString]
  · intro err herr
    apply next_of_error
    rw [hget min max num]
    simpa only [fmtD_eq_toString] using herr
  · exact hhandler "http://localhost/random" "localhost" "" "/random" (Or.inl (by decide))
      (by decide) (by decide) (by decide)

/-- C6, amended, at the default base URL and the arguments of the handler. -/
theorem next_request_url_witness :
    ("http://localhost/random" = "http://" ++ "localhost" ++ "" ++ "/random"
        ∨ "http://localhost/random" = "https://" ++ "localhost" ++ "" ++ "/random")
      ∧ "localhost".data.all isUnreserved = true
      ∧ isPort "".data = true
      ∧ isPlainPath "/random".data = true
      ∧ ((testRandomService (valuesBody [255, 0, 50])).next 0 255 3).1
          = ["http://localhost/random/next?min=0&max=255&num=3"] :=
  ⟨Or.inl (by decide), by decide, by decide, by decide,
    ((next_request_url "http://localhost/random" "localhost" "" "/random"
      ⟨fun _ => .ok (valuesBody [255, 0, 50])⟩ 0 255 3 .fresh (Or.inl (by decide))
      (by decide) (by decide) (by decide)).2.2.2.1).trans (by decide)⟩

/-- C7, evaluated at the message `boom` and the status 400 of a `/next` failure: the body that
`ErrorResponse.render` sends is the JSON encoding of the object followed by a line feed, under the
content type `text/plain`, so it is not exactly the JSON encoding; the sibling
`ColorResponse.render` sends exactly the JSON encoding, under `application/json`. -/
theorem renderError_not_exact :
    (ErrorResponse.mk "boom").render .fresh 400 = .ok
        ⟨[("X-Content-Type-Options", "nosniff"), ("Content-Type", "text/plain; charset=utf-8")],
          some 400, "\x7b\"error\":\"boom\"\x7d\n"⟩
      ∧ (json.MarshalErrorResponse ⟨"boom"⟩).1 = "\x7b\"error\":\"boom\"\x7d"
      ∧ "\x7b\"error\":\"boom\"\x7d\n" ≠ (json.MarshalErrorResponse ⟨"boom"⟩).1
      ∧ (ColorResponse.mk "#ff0032" 255 0 50).render .fresh = .ok
          ⟨[("Content-Type", "application/json")], some 200,
            (json.MarshalColorResponse ⟨"#ff0032", 255, 0, 50⟩).1⟩ := by
  decide

/-- C8, evaluated at the body `{}`: it does not have the expected shape, and `RandomService.next`
returns an empty sequence without an error. -/
theorem next_accepts_empty_object :
    (JSON.obj []).isExpectedShape = false
      ∧ ((testRandomService (.ok (.obj []))).next 0 255 3).2 = .ok [] := by
  decide

/-- C8, amended: `RandomService.next` fails with a decode error, and returns no values, for
every body that is not well-formed JSON or whose value cannot be stored in a `RandomResponse`
(a value other than an object or `null`, or an object with a member `values` that is neither `null`
nor an array of `null`s and integers within the range of `int`); it returns values without an error
only for the other bodies, and for the body `{"values":[...]}` of integers within the range of `int` it
returns these integers. -/
theorem next_decode (s : RandomService) (min max num : Int) (body : Body)
    (hget : (s.Client.Get (s.BaseUrl ++ "/next?min=" ++ fmtD min ++ "&max=" ++ fmtD max
      ++ "&num=" ++ fmtD num)).2 = .ok body) :
    ((¬ ∃ j, body = .ok j ∧ j.fitsRandomResponse = true) →
        ∃ e, (s.next min max num).2 = .error e ∧ e.isDecodeError = true)
      ∧ (∀ vs, (s.next min max num).2 = .ok vs →
          ∃ j, body = .ok j ∧ j.fitsRandomResponse = true)
      ∧ (∀ ints : List Int, (∀ i ∈ ints, minInt ≤ i ∧ i ≤ maxInt) → body = valuesBody ints →
          (s.next min max num).2 = .ok ints) := by
  have hn := next_of_body s min max num body hget
  refine ⟨?_, ?_, ?_⟩
  · intro hno
    cases he : (json.Unmarshal body .new).2 with
    | none => exact absurd ((unmarshal_none_iff body .new).mp he) hno
    | some e =>
      rw [he] at hn
      exact ⟨e, hn, unmarshal_decodeError body .new e he⟩
  · intro vs hvs
    cases he : (json.Unmarshal body .new).2 with
    | none => exact (unmarshal_none_iff body .new).mp he
    | some e =>
      rw [he] at hn
      rw [hn] at hvs
      cases hvs
  · intro ints hr hb
    subst hb
    rw [hn, unmarshal_valuesBody ints hr]

/-- C8, amended, at the body `{"values":[255,0,50]}`. -/
theorem next_decode_witness :
    ((testRandomService (valuesBody [255, 0, 50])).Client.Get
        ((testRandomService (valuesBody [255, 0, 50])).BaseUrl ++ "/next?min=" ++ fmtD 0
          ++ "&max=" ++ fmtD 255 ++ "&num=" ++ fmtD 3)).2 = .ok (valuesBody [255, 0, 50])
      ∧ ((testRandomService (valuesBody [255, 0, 50])).next 0 255 3).2 = .ok [255, 0, 50] :=
  ⟨rfl, (next_decode (testRandomService (valuesBody [255, 0, 50])) 0 255 3
    (valuesBody [255, 0, 50]) rfl).2.2 [255, 0, 50] (by decide) rfl⟩

end ColorSvc
